import Mathlib

/-!
# Iterative closest point registration: subsampling, correspondences, registration step

A shallow embedding of `RegistrationViewer.cc`.  Scalars (`float`, `double`) are
read as elements of a linearly ordered commutative ring `K` (exact arithmetic,
no rounding), so every definition is executable at `K = ℤ`.  The one value
that the source computes with `asin`, the normal angle, can be NaN; it is an
`Option K` with `none` for NaN.
`std::vector` is `List`; an access outside the vector is the failure
`Failure.outOfRange`.
-/

namespace ICP

/-- Ways a modelled call can fail. -/
inductive Failure where
  | outOfRange
  | emptyIndex
  | divisionByZero
  | fuel
deriving DecidableEq, Repr

deriving instance DecidableEq for Except

/-- Three component vector, the `Vector3d` of the source. -/
structure Vector3d (K : Type) where
  x : K
  y : K
  z : K
deriving DecidableEq, Repr

/-- One mesh vertex: position, vertex normal and the `is_boundary` flag. -/
structure Vertex (K : Type) where
  point : Vector3d K
  normal : Vector3d K
  boundary : Bool
deriving DecidableEq, Repr

/-- The part of an OpenMesh `Mesh` the registration code reads: the vertices in
iteration order and the halfedges as (from vertex, to vertex) index pairs. -/
structure Mesh (K : Type) where
  vertices : List (Vertex K)
  halfedges : List (Nat × Nat)
deriving DecidableEq, Repr

section Defs

variable {K : Type} [LinearOrderedCommRing K]

/-- Componentwise difference `a - b`. -/
def Vector3d.sub (a b : Vector3d K) : Vector3d K :=
  ⟨a.x - b.x, a.y - b.y, a.z - b.z⟩

/-- Squared Euclidean length `length2`. -/
def length2 (v : Vector3d K) : K :=
  v.x * v.x + v.y * v.y + v.z * v.z

/-- The test `length(v) < r` of the source, where `length` is the square root of
`length2`: it holds exactly when `r` is positive and `length2 v < r * r`. -/
def lengthLt (v : Vector3d K) (r : K) : Bool :=
  decide (0 < r) && decide (length2 v < r * r)

/-- The distance between `p` and `q` is at least `r` (the negation of
`length(p - q) < r`). -/
def distGe (p q : Vector3d K) (r : K) : Prop :=
  r ≤ 0 ∨ r * r ≤ length2 (p.sub q)

instance (p q : Vector3d K) (r : K) : Decidable (distGe p q r) :=
  inferInstanceAs (Decidable (_ ∨ _))

/-- Number of vertices `n_vertices()`. -/
def Mesh.n_vertices (m : Mesh K) : Nat :=
  m.vertices.length

/-- Lift a vector access to a fallible result. -/
def elemAt {α : Type} (xs : List α) (i : Nat) : Except Failure α :=
  match xs[i]? with
  | some a => .ok a
  | none => .error .outOfRange

/-- The loop of `subsample` that finds the smallest vertex count of all meshes,
started from `meshes_[0].n_vertices()`. -/
def n_vertices_smallest (meshes_ : List (Mesh K)) : Except Failure Int :=
  match meshes_ with
  | [] => .error .outOfRange
  | m0 :: _ =>
    .ok (meshes_.foldl
      (fun n m => if (m.n_vertices : Int) < n then (m.n_vertices : Int) else n)
      (m0.n_vertices : Int))

/-- The sweep `for (iter = _pts.begin(); ..., i < n_vertices_smallest - step;
iter += step, i += step)` of `subsample` with `step = 4` and `window_size = 40`.
`i` is the loop counter (the iterator `iter` points at `_pts[i]`), `indeces` and
`pts_chosen` are the two vectors being filled.  The first argument bounds the
number of iterations. -/
def subsampleLoop (_pts : List (Vector3d K)) (subsampleRadius : K) (nSmallest : Int) :
    Nat → Nat → List Nat → List (Vector3d K) → Except Failure (List Nat)
  | 0, i, indeces, _ =>
    if (i : Int) < nSmallest - 4 then .error .fuel else .ok indeces
  | fuel + 1, i, indeces, pts_chosen =>
    if (i : Int) < nSmallest - 4 then
      match _pts[i]? with
      | none => .error .outOfRange
      | some p =>
        let window := pts_chosen.drop (pts_chosen.length - 40)
        let inside_range := window.any (fun c => lengthLt (p.sub c) subsampleRadius)
        if inside_range = false then
          subsampleLoop _pts subsampleRadius nSmallest fuel (i + 4)
            (indeces ++ [i]) (pts_chosen ++ [p])
        else
          subsampleLoop _pts subsampleRadius nSmallest fuel (i + 4) indeces pts_chosen
    else .ok indeces

/-- The index list computed by `subsample`: the first point is kept, then the
sweep runs with radius `5 * averageVertexDistance_`. -/
def subsampleIndices (meshes_ : List (Mesh K)) (averageVertexDistance_ : K)
    (_pts : List (Vector3d K)) : Except Failure (List Nat) :=
  let subsampleRadius := 5 * averageVertexDistance_
  match _pts[0]? with
  | none => .error .outOfRange
  | some p0 =>
    match n_vertices_smallest meshes_ with
    | .error e => .error e
    | .ok n => subsampleLoop _pts subsampleRadius n n.toNat 0 [0] [p0]

/-! ### Collaborators whose sources are not part of the repository snapshot -/

/-- Scalar product of two vectors. -/
def dot (a b : Vector3d K) : K :=
  a.x * b.x + a.y * b.y + a.z * b.z

/-- Componentwise sum `a + b`. -/
def Vector3d.add (a b : Vector3d K) : Vector3d K :=
  ⟨a.x + b.x, a.y + b.y, a.z + b.z⟩

/-- Modelled from the spec: the class `Transformation` (its header is not among
the sources).  A rigid motion is a rotation, kept as the three rows of its
matrix, and a translation. -/
structure Transformation (K : Type) where
  row0 : Vector3d K
  row1 : Vector3d K
  row2 : Vector3d K
  translation_ : Vector3d K
deriving DecidableEq, Repr

/-- Modelled from the spec: the default constructed `Transformation()`, the
identity. -/
def Transformation.identity : Transformation K :=
  ⟨⟨1, 0, 0⟩, ⟨0, 1, 0⟩, ⟨0, 0, 1⟩, ⟨0, 0, 0⟩⟩

/-- Modelled from the spec: `transformVector`, the linear part only. -/
def Transformation.transformVector (t : Transformation K) (v : Vector3d K) : Vector3d K :=
  ⟨dot t.row0 v, dot t.row1 v, dot t.row2 v⟩

/-- Modelled from the spec: `transformPoint`, rotation followed by translation. -/
def Transformation.transformPoint (t : Transformation K) (p : Vector3d K) : Vector3d K :=
  (t.transformVector p).add t.translation_

/-- Modelled from the spec: `transformPoints`, every point transformed. -/
def Transformation.transformPoints (t : Transformation K) (ps : List (Vector3d K)) :
    List (Vector3d K) :=
  ps.map t.transformPoint

/-- Modelled from the spec: `transformVectors`, every vector transformed. -/
def Transformation.transformVectors (t : Transformation K) (vs : List (Vector3d K)) :
    List (Vector3d K) :=
  vs.map t.transformVector

/-- Linear scan behind `getClosestPoint`: `i` is the index of the head of the
remaining points, `best` the best index so far and `bestD` its squared distance. -/
def closestScan (q : Vector3d K) : List (Vector3d K) → Nat → Nat → K → Nat
  | [], _, best, _ => best
  | p :: ps, i, best, bestD =>
    if length2 (p.sub q) < bestD then closestScan q ps (i + 1) i (length2 (p.sub q))
    else closestScan q ps (i + 1) best bestD

/-- Modelled from the spec: `ClosestPoint::init` followed by
`ClosestPoint::getClosestPoint` (the class is not among the sources).  The
index of the point nearest to the query, the lowest index on ties; a query on
an empty point set fails with `emptyIndex`. -/
def getClosestPoint (points : List (Vector3d K)) (query : Vector3d K) : Except Failure Nat :=
  match points with
  | [] => .error .emptyIndex
  | p0 :: ps => .ok (closestScan query ps 1 0 (length2 (p0.sub query)))

/-! ### Reading a mesh -/

/-- Points of a mesh in vertex order (`get_points`). -/
def get_points (_mesh : Mesh K) : List (Vector3d K) :=
  _mesh.vertices.map (fun v => v.point)

/-- Vertex normals of a mesh in vertex order (`get_normals`). -/
def get_normals (_mesh : Mesh K) : List (Vector3d K) :=
  _mesh.vertices.map (fun v => v.normal)

/-- Boundary flags of a mesh in vertex order (`get_borders`). -/
def get_borders (_mesh : Mesh K) : List Bool :=
  _mesh.vertices.map (fun v => v.boundary)

/-! ### The viewer state and `subsample` -/

/-- The members of `RegistrationViewer` the registration code uses.  The two
`int` members `currIndex_` and `numProcessed_` are never negative in the
source and are kept as natural numbers. -/
structure RegistrationViewer (K : Type) where
  meshes_ : List (Mesh K)
  transformations_ : List (Transformation K)
  currIndex_ : Nat
  numProcessed_ : Nat
  averageVertexDistance_ : K
  sampledPoints_ : List Nat
deriving DecidableEq, Repr

/-- The method `subsample`: the computed indices are stored in
`sampledPoints_` and returned. -/
def subsample (self : RegistrationViewer K) (_pts : List (Vector3d K)) :
    Except Failure (List Nat × RegistrationViewer K) :=
  match subsampleIndices self.meshes_ self.averageVertexDistance_ _pts with
  | .error e => .error e
  | .ok indeces => .ok (indeces, { self with sampledPoints_ := indeces })

/-! ### `calculate_correspondences` -/

/-- The five parallel candidate vectors of `calculate_correspondences`. -/
structure Candidates (K : Type) where
  srcCandidatePts : List (Vector3d K)
  srcCandidateNormals : List (Vector3d K)
  targetCandidatePts : List (Vector3d K)
  targetCandidateNormals : List (Vector3d K)
  src_target_dis2 : List K
deriving DecidableEq, Repr

/-- The five `push_back` calls for one accepted match. -/
def Candidates.push (c : Candidates K) (sp sn tp tn : Vector3d K) (d : K) : Candidates K :=
  ⟨c.srcCandidatePts ++ [sp], c.srcCandidateNormals ++ [sn], c.targetCandidatePts ++ [tp],
    c.targetCandidateNormals ++ [tn], c.src_target_dis2 ++ [d]⟩

/-- The inner loop `for (j = 0; j < indeces.size(); j++)` over the sampled source
indices, for one target scan. -/
def matchLoop (srcPts srcNormals targetPts targetNormals : List (Vector3d K))
    (targetBorders : List Bool) : List Nat → Candidates K → Except Failure (Candidates K)
  | [], c => .ok c
  | index :: rest, c =>
    match elemAt srcPts index with
    | .error e => .error e
    | .ok sp =>
      match getClosestPoint targetPts sp with
      | .error e => .error e
      | .ok bestIndex =>
        match elemAt targetBorders bestIndex with
        | .error e => .error e
        | .ok border =>
          if border = false then
            match elemAt srcNormals index, elemAt targetPts bestIndex,
                elemAt targetNormals bestIndex with
            | .ok sn, .ok tp, .ok tn =>
              matchLoop srcPts srcNormals targetPts targetNormals targetBorders rest
                (c.push sp sn tp tn (length2 (sp.sub tp)))
            | _, _, _ => .error .outOfRange
          else
            matchLoop srcPts srcNormals targetPts targetNormals targetBorders rest c

/-- The outer loop `for (i = 0; i < numProcessed_; i++)` over the processed
scans, skipping the current one; the list argument holds the values of `i`
still to visit. -/
def scanLoop (self : RegistrationViewer K) (srcPts srcNormals : List (Vector3d K))
    (indeces : List Nat) : List Nat → Candidates K → Except Failure (Candidates K)
  | [], c => .ok c
  | i :: rest, c =>
    if i = self.currIndex_ then scanLoop self srcPts srcNormals indeces rest c
    else
      match elemAt self.meshes_ i, elemAt self.transformations_ i with
      | .ok mesh, .ok tr =>
        let targetPts := tr.transformPoints (get_points mesh)
        let targetNormals := tr.transformVectors (get_normals mesh)
        let targetBorders := get_borders mesh
        match matchLoop srcPts srcNormals targetPts targetNormals targetBorders indeces c with
        | .error e => .error e
        | .ok c1 => scanLoop self srcPts srcNormals indeces rest c1
      | _, _ => .error .outOfRange

/-- The value `tombstone = 0.0` that marks a rejected candidate. -/
def tombstone : K := 0

/-- The threshold `distMedianThresh = 3` on the squared distance. -/
def distMedianThresh : K := 3

/-- The threshold `normalCompatabilityThresh = 60` on the normal angle. -/
def normalCompatabilityThresh : K := 60

/-- The comparison `x > thresh` of the source for a `double` `x` that may be
NaN (`none`): a comparison with NaN is false. -/
def gtNaN (x : Option K) (thresh : K) : Prop :=
  match x with
  | some v => v > thresh
  | none => False

instance (x : Option K) (thresh : K) : Decidable (gtNaN x thresh) :=
  match x with
  | some v => inferInstanceAs (Decidable (v > thresh))
  | none => inferInstanceAs (Decidable False)

/-- The marking loop `for (index = 0; index < size; index++)` of the pruning.
`angleDeg a b` stands for the value
`2 * asin(length(a.normalize() - b.normalize()) / 2) * 180 / PI` of the source
(`asin` and `Vector3d::normalize` are library code; `normalize` is read as
returning the unit vector and leaving the stored normal as it is).  The value
is `none` when `asin` returns NaN, which happens when `length / 2` rounds above
1; the test `... > normalCompatabilityThresh` is then false. -/
def markLoop (angleDeg : Vector3d K → Vector3d K → Option K)
    (srcCandidateNormals targetCandidateNormals : List (Vector3d K)) :
    List Nat → List K → Except Failure (List K)
  | [], dis2 => .ok dis2
  | index :: rest, dis2 =>
    match elemAt srcCandidateNormals index, elemAt targetCandidateNormals index,
        elemAt dis2 index with
    | .ok a, .ok b, .ok d =>
      if d > distMedianThresh ∨ gtNaN (angleDeg a b) normalCompatabilityThresh then
        markLoop angleDeg srcCandidateNormals targetCandidateNormals rest
          (dis2.set index tombstone)
      else
        markLoop angleDeg srcCandidateNormals targetCandidateNormals rest dis2
    | _, _, _ => .error .outOfRange

/-- The call `v.erase(v.begin() + i)`; erasing past the end is a failure. -/
def eraseAt {α : Type} (xs : List α) (i : Nat) : Except Failure (List α) :=
  if i < xs.length then .ok (xs.eraseIdx i) else .error .outOfRange

/-- The erasing loop over `src_target_dis2`.  The iterator `iter` always
stands at position `counter`, so `iter != end` is `counter < size` and `*iter`
is `src_target_dis2[counter]`.  The first argument bounds the number of
iterations. -/
def eraseLoop : Nat → Nat → Candidates K → Except Failure (Candidates K)
  | 0, counter, c =>
    match c.src_target_dis2[counter]? with
    | none => .ok c
    | some _ => .error .fuel
  | fuel + 1, counter, c =>
    match c.src_target_dis2[counter]? with
    | none => .ok c
    | some d =>
      if d = tombstone then
        match eraseAt c.srcCandidatePts counter, eraseAt c.srcCandidateNormals counter,
            eraseAt c.targetCandidatePts counter, eraseAt c.targetCandidateNormals counter,
            eraseAt c.src_target_dis2 counter with
        | .ok sp, .ok sn, .ok tp, .ok tn, .ok ds => eraseLoop fuel counter ⟨sp, sn, tp, tn, ds⟩
        | _, _, _, _, _ => .error .outOfRange
      else eraseLoop fuel (counter + 1) c

/-- The pruning part of `calculate_correspondences`: mark, then erase. -/
def prune (angleDeg : Vector3d K → Vector3d K → Option K) (c : Candidates K) :
    Except Failure (Candidates K) :=
  let size := c.srcCandidateNormals.length
  match markLoop angleDeg c.srcCandidateNormals c.targetCandidateNormals (List.range size)
      c.src_target_dis2 with
  | .error e => .error e
  | .ok dis2 => eraseLoop dis2.length 0 { c with src_target_dis2 := dis2 }

/-- The three output vectors `_src`, `_target`, `_target_normals`. -/
structure Correspondences (K : Type) where
  src : List (Vector3d K)
  target : List (Vector3d K)
  target_normals : List (Vector3d K)
deriving DecidableEq, Repr

/-- The candidate collection of `calculate_correspondences`, up to the
pruning: the current scan is transformed and subsampled, then every other
processed scan is searched. -/
def collectCandidates (self : RegistrationViewer K) :
    Except Failure (Candidates K × RegistrationViewer K) :=
  match elemAt self.meshes_ self.currIndex_, elemAt self.transformations_ self.currIndex_ with
  | .ok mesh, .ok tr =>
    let srcPts := tr.transformPoints (get_points mesh)
    let srcNormals := tr.transformVectors (get_normals mesh)
    match subsample self srcPts with
    | .error e => .error e
    | .ok (indeces, self1) =>
      match scanLoop self1 srcPts srcNormals indeces (List.range self1.numProcessed_)
          ⟨[], [], [], [], []⟩ with
      | .error e => .error e
      | .ok c => .ok (c, self1)
  | _, _ => .error .outOfRange

/-- The method `calculate_correspondences`.  The three reference parameters
are cleared on entry and assigned from the pruned candidates on exit. -/
def calculate_correspondences (angleDeg : Vector3d K → Vector3d K → Option K)
    (self : RegistrationViewer K) (_src _target _target_normals : List (Vector3d K)) :
    Except Failure (Correspondences K × RegistrationViewer K) :=
  let _src : List (Vector3d K) := []
  let _target : List (Vector3d K) := []
  let _target_normals : List (Vector3d K) := []
  match collectCandidates self with
  | .error e => .error e
  | .ok (c, self1) =>
    match prune angleDeg c with
    | .error e => .error e
    | .ok c1 =>
      .ok (⟨c1.srcCandidatePts, c1.targetCandidatePts, c1.targetCandidateNormals⟩, self1)

/-! ### Composing transformations, `perform_registration` and `motion` -/

/-- Componentwise negation `-a`. -/
def Vector3d.neg (a : Vector3d K) : Vector3d K :=
  ⟨-a.x, -a.y, -a.z⟩

/-- First column of the rotation matrix. -/
def Transformation.col0 (t : Transformation K) : Vector3d K :=
  ⟨t.row0.x, t.row1.x, t.row2.x⟩

/-- Second column of the rotation matrix. -/
def Transformation.col1 (t : Transformation K) : Vector3d K :=
  ⟨t.row0.y, t.row1.y, t.row2.y⟩

/-- Third column of the rotation matrix. -/
def Transformation.col2 (t : Transformation K) : Vector3d K :=
  ⟨t.row0.z, t.row1.z, t.row2.z⟩

/-- Modelled from the spec: the product `a * b` of the class `Transformation`
(its header is not among the sources), the motion that applies `b` first and
`a` second: rotation `Ra Rb`, translation `Ra tb + ta`. -/
def Transformation.mul (a b : Transformation K) : Transformation K :=
  ⟨⟨dot a.row0 b.col0, dot a.row0 b.col1, dot a.row0 b.col2⟩,
    ⟨dot a.row1 b.col0, dot a.row1 b.col1, dot a.row1 b.col2⟩,
    ⟨dot a.row2 b.col0, dot a.row2 b.col1, dot a.row2 b.col2⟩,
    a.transformPoint b.translation_⟩

/-- Modelled from the spec: `inverse` of a rigid motion, rotation `Rᵗ` and
translation `-Rᵗ t`. -/
def Transformation.inverse (t : Transformation K) : Transformation K :=
  ⟨t.col0, t.col1, t.col2,
    (Vector3d.neg ⟨dot t.col0 t.translation_, dot t.col1 t.translation_,
      dot t.col2 t.translation_⟩)⟩

/-- The method `perform_registration`.  The two solvers of the class
`Registration` (not among the sources) are the parameters
`register_point2point` and `register_point2surface`; the solved transformation
is multiplied from the left onto the transformation of the current scan. -/
def perform_registration (angleDeg : Vector3d K → Vector3d K → Option K)
    (register_point2point : List (Vector3d K) → List (Vector3d K) → Transformation K)
    (register_point2surface :
      List (Vector3d K) → List (Vector3d K) → List (Vector3d K) → Transformation K)
    (self : RegistrationViewer K) (_tangential_motion : Bool) :
    Except Failure (RegistrationViewer K) :=
  match calculate_correspondences angleDeg self [] [] [] with
  | .error e => .error e
  | .ok (out, self1) =>
    let opt_tr :=
      if _tangential_motion then register_point2surface out.src out.target out.target_normals
      else register_point2point out.src out.target
    match elemAt self1.transformations_ self1.currIndex_ with
    | .error e => .error e
    | .ok old =>
      .ok { self1 with
        transformations_ := self1.transformations_.set self1.currIndex_ (opt_tr.mul old) }

/-- The update that the zoom, rotation and translation branches of `motion`
share in mode `MOVE`: `transformations_[currIndex_] = mv_tr.inverse() * tr *
mv_tr * transformations_[currIndex_]`.  The model view transformation `mv_tr`
read from OpenGL and the increment `tr` computed from the mouse are
parameters. -/
def motion_move (self : RegistrationViewer K) (mv_tr tr : Transformation K) :
    Except Failure (RegistrationViewer K) :=
  match elemAt self.transformations_ self.currIndex_ with
  | .error e => .error e
  | .ok old =>
    .ok { self with
      transformations_ :=
        self.transformations_.set self.currIndex_ (((mv_tr.inverse.mul tr).mul mv_tr).mul old) }

/-! ### Loading the scans and stepping through them -/

/-- Position of the vertex with handle `v` (`_mesh.point`).  Vertex handles of
a mesh are valid; the default only makes the function total. -/
def Mesh.point (m : Mesh K) (v : Nat) : Vector3d K :=
  match m.vertices[v]? with
  | some vx => vx.point
  | none => ⟨0, 0, 0⟩

/-- The function `get_average_vertex_distance`: the mean length of the
halfedges, 0 for a mesh without halfedges.  The library operations `sqrt` and
the floating point division are parameters. -/
def get_average_vertex_distance (sqrt : K → K) (divide : K → K → K) (_mesh : Mesh K) : K :=
  let acc := _mesh.halfedges.foldl
    (fun (acc : K × Nat) he =>
      let p := _mesh.point he.1
      let q := _mesh.point he.2
      let edgeLength := sqrt (dot (p.sub q) (p.sub q))
      (acc.1 + edgeLength, acc.2 + 1))
    (0, 0)
  if acc.2 > 0 then divide acc.1 (acc.2 : K) else 0

/-- One pass of the loading loop of `open_meshes`.  `file` is the outcome of
`read_mesh` for one file name: `some mesh` when the file was read, where `mesh`
is the mesh after `clean_mesh`, the centring at the centre of gravity and
`update_normals` (the object that `get_average_vertex_distance` is called on
and that is pushed), and `none` when reading failed, in which case the empty
mesh is pushed. -/
def open_meshes_step (sqrt : K → K) (divide : K → K → K)
    (st : Bool × RegistrationViewer K) (file : Option (Mesh K)) : Bool × RegistrationViewer K :=
  match file with
  | some mesh =>
    (st.1, { st.2 with
      averageVertexDistance_ := get_average_vertex_distance sqrt divide mesh
      meshes_ := st.2.meshes_ ++ [mesh]
      transformations_ := st.2.transformations_ ++ [Transformation.identity] })
  | none =>
    (false, { st.2 with
      meshes_ := st.2.meshes_ ++ [⟨[], []⟩]
      transformations_ := st.2.transformations_ ++ [Transformation.identity] })

/-- The method `open_meshes`, as far as it writes the members used by the
registration: the loading loop, then `numProcessed_ = min(2, meshes_.size())`
and `currIndex_ = max(0, numProcessed_ - 1)`.  Returns `success` and the new
state. -/
def open_meshes (sqrt : K → K) (divide : K → K → K) (self : RegistrationViewer K)
    (files : List (Option (Mesh K))) : Bool × RegistrationViewer K :=
  let st := files.foldl (open_meshes_step sqrt divide) (true, self)
  let numProcessed : Nat := min 2 st.2.meshes_.length
  let currIndex : Nat := (max 0 ((numProcessed : Int) - 1)).toNat
  (st.1, { st.2 with numProcessed_ := numProcessed, currIndex_ := currIndex })

/-- The case `'n'` of `keyboard`: the samples are cleared, one more scan counts
as processed and the next scan becomes current.  The remainder
`(currIndex_ + 1) % int(meshes_.size())` is undefined without meshes. -/
def keyboard_n (self : RegistrationViewer K) : Except Failure (RegistrationViewer K) :=
  if self.meshes_.length = 0 then .error .divisionByZero
  else
    .ok { self with
      sampledPoints_ := []
      numProcessed_ := min (self.numProcessed_ + 1) self.meshes_.length
      currIndex_ := (self.currIndex_ + 1) % self.meshes_.length }

/-- The key `'n'` pressed `k` times in a row. -/
def keyboard_n_times : Nat → RegistrationViewer K → Except Failure (RegistrationViewer K)
  | 0, self => .ok self
  | k + 1, self =>
    match keyboard_n self with
    | .error e => .error e
    | .ok self1 => keyboard_n_times k self1

/-- The scan cursor invariant: the current scan is among the processed scans,
the processed scans are among the loaded ones, and every mesh has its
transformation. -/
def CursorInv (self : RegistrationViewer K) : Prop :=
  self.currIndex_ < self.numProcessed_ ∧ self.numProcessed_ ≤ self.meshes_.length ∧
    self.transformations_.length = self.meshes_.length

/-- The meshes whose files were read, in loading order. -/
def readMeshes (files : List (Option (Mesh K))) : List (Mesh K) :=
  files.filterMap id

/-! ### Specification level notions for `subsample` -/

/-- The trailing window of the sweep: the (at most) 40 most recently kept
entries of a list. -/
def window {α : Type} (kept : List α) : List α :=
  kept.drop (kept.length - 40)

/-- The point `p` lies at distance at least `r` from the point of every index
in the trailing window of `kept`. -/
def farFromWindow (pts : List (Vector3d K)) (r : K) (kept : List Nat) (p : Vector3d K) : Prop :=
  ∀ a ∈ window kept, ∃ q, pts[a]? = some q ∧ distGe p q r

/-- The indices kept before index `i` is examined, read off the returned list. -/
def keptBefore (indeces : List Nat) (i : Nat) : List Nat :=
  indeces.filter (fun a => decide (a < i))

/-- Windowed separation of an index list: two entries at most 40 positions
apart select points at distance at least `r`. -/
def WinSep (pts : List (Vector3d K)) (r : K) (l : List Nat) : Prop :=
  ∀ j k a b, j < k → k ≤ j + 40 → l[j]? = some b → l[k]? = some a →
    ∃ p q, pts[a]? = some p ∧ pts[b]? = some q ∧ distGe p q r

/-- A run of the sweep as a relation: from loop counter `i` with kept indices
`ind` the sweep ends with the index list `res`. -/
inductive Sweep (pts : List (Vector3d K)) (r : K) (n : Int) : Nat → List Nat → List Nat → Prop
  | done (i : Nat) (ind : List Nat) : ¬ ((i : Int) < n - 4) → Sweep pts r n i ind ind
  | keep (i : Nat) (ind res : List Nat) (p : Vector3d K) :
      (i : Int) < n - 4 → pts[i]? = some p → farFromWindow pts r ind p →
      Sweep pts r n (i + 4) (ind ++ [i]) res → Sweep pts r n i ind res
  | skip (i : Nat) (ind res : List Nat) (p : Vector3d K) :
      (i : Int) < n - 4 → pts[i]? = some p → ¬ farFromWindow pts r ind p →
      Sweep pts r n (i + 4) ind res → Sweep pts r n i ind res

/-- The chosen points `ch` are the points of the kept indices `ind`, in order. -/
def Aligned {α : Type} (pts : List α) (ind : List Nat) (ch : List α) : Prop :=
  ch.map some = ind.map (fun a => pts[a]?)

/-! ### Specification level notions for `calculate_correspondences` -/

/-- One candidate pair: the entries at one position of the five candidate
vectors. -/
structure Candidate (K : Type) where
  srcPt : Vector3d K
  srcNormal : Vector3d K
  targetPt : Vector3d K
  targetNormal : Vector3d K
  dis2 : K
deriving DecidableEq, Repr

/-- The five parallel vectors holding a list of candidate pairs. -/
def Candidates.ofList (cs : List (Candidate K)) : Candidates K :=
  ⟨cs.map (fun c => c.srcPt), cs.map (fun c => c.srcNormal), cs.map (fun c => c.targetPt),
    cs.map (fun c => c.targetNormal), cs.map (fun c => c.dis2)⟩

/-- The rejection test of the marking loop for one candidate. -/
def rejected (angleDeg : Vector3d K → Vector3d K → Option K) (c : Candidate K) : Prop :=
  c.dis2 > distMedianThresh ∨
    gtNaN (angleDeg c.srcNormal c.targetNormal) normalCompatabilityThresh

instance (angleDeg : Vector3d K → Vector3d K → Option K) (c : Candidate K) :
    Decidable (rejected angleDeg c) :=
  inferInstanceAs (Decidable (_ ∨ _))

/-- A candidate after the marking loop: a rejected one carries the tombstone. -/
def marked (angleDeg : Vector3d K → Vector3d K → Option K) (c : Candidate K) : Candidate K :=
  if rejected angleDeg c then { c with dis2 := tombstone } else c

/-- The candidates that are left after the erasing loop: those not rejected
whose recorded squared distance differs from the tombstone. -/
def survives (angleDeg : Vector3d K → Vector3d K → Option K) (c : Candidate K) : Bool :=
  decide (¬ rejected angleDeg c) && decide (c.dis2 ≠ tombstone)

/-- The candidate that a sampled source index yields against one target scan:
the pair of the source point and its closest target point, unless that target
point is a boundary point. -/
def matchCandidate (srcPts srcNormals targetPts targetNormals : List (Vector3d K))
    (targetBorders : List Bool) (index : Nat) : Option (Candidate K) :=
  match srcPts[index]? with
  | none => none
  | some sp =>
    match getClosestPoint targetPts sp with
    | .error _ => none
    | .ok bestIndex =>
      match targetBorders[bestIndex]?, srcNormals[index]?, targetPts[bestIndex]?,
          targetNormals[bestIndex]? with
      | some false, some sn, some tp, some tn => some ⟨sp, sn, tp, tn, length2 (sp.sub tp)⟩
      | _, _, _, _ => none

/-- The candidates contributed by target scan `i`, in the order of the sampled
source indices. -/
def scanCandidates (self : RegistrationViewer K) (srcPts srcNormals : List (Vector3d K))
    (indeces : List Nat) (i : Nat) : List (Candidate K) :=
  match self.meshes_[i]?, self.transformations_[i]? with
  | some mesh, some tr =>
    indeces.filterMap (matchCandidate srcPts srcNormals (tr.transformPoints (get_points mesh))
      (tr.transformVectors (get_normals mesh)) (get_borders mesh))
  | _, _ => []

/-- The target scans in visiting order: the processed scans `i < numProcessed_`
other than the current one, by increasing index. -/
def targetScans (self : RegistrationViewer K) : List Nat :=
  (List.range self.numProcessed_).filter (fun i => decide (i ≠ self.currIndex_))

/-- The candidate list in accumulation order: across target scans by
increasing scan index, within a target scan in the order of the sampled source
indices. -/
def accumulationOrder (self : RegistrationViewer K) (srcPts srcNormals : List (Vector3d K))
    (indeces : List Nat) : List (Candidate K) :=
  (targetScans self).flatMap (scanCandidates self srcPts srcNormals indeces)

/-! ### The container `randomaccesstable` -/

/-- The class template `randomaccesstable`: a vector `data_` of which the
first `count_` positions are live. -/
structure randomaccesstable (Elem : Type) where
  data_ : List Elem
  count_ : Nat
deriving DecidableEq, Repr

/-- The constructor `randomaccesstable(initial_size)`: `initial_size` value
initialised elements, none of them live. -/
def randomaccesstable.new {Elem : Type} [Inhabited Elem] (initial_size : Nat) :
    randomaccesstable Elem :=
  ⟨List.replicate initial_size default, 0⟩

/-- The method `size`. -/
def randomaccesstable.size {Elem : Type} (t : randomaccesstable Elem) : Nat :=
  t.count_

/-- The method `push_back`: the element is written at position `count_` when
that position exists and appended to `data_` otherwise. -/
def randomaccesstable.push_back {Elem : Type} (t : randomaccesstable Elem) (elem : Elem) :
    randomaccesstable Elem :=
  if t.count_ < t.data_.length then ⟨t.data_.set t.count_ elem, t.count_ + 1⟩
  else ⟨t.data_ ++ [elem], t.count_ + 1⟩

/-- The method `remove`: for a live index, `std::swap(data_[index],
data_[count_ - 1])` and then `--count_`; nothing for other indices. -/
def randomaccesstable.remove {Elem : Type} (t : randomaccesstable Elem) (index : Nat) :
    Except Failure (randomaccesstable Elem) :=
  if index < t.count_ then
    match t.data_[index]?, t.data_[t.count_ - 1]? with
    | some a, some b => .ok ⟨(t.data_.set index b).set (t.count_ - 1) a, t.count_ - 1⟩
    | _, _ => .error .outOfRange
  else .ok t

/-- The live elements of a table: the first `count_` positions of `data_`. -/
def randomaccesstable.live {Elem : Type} (t : randomaccesstable Elem) : List Elem :=
  t.data_.take t.count_

end Defs

/-! ### Concrete inputs -/

/-- A mesh without faces whose vertices are the given points, all with normal
`(0, 0, 1)` and none on the boundary. -/
def meshOfPoints (pts : List (Vector3d ℤ)) : Mesh ℤ :=
  ⟨pts.map (fun p => ⟨p, ⟨0, 0, 1⟩, false⟩), []⟩

/-- A viewer holding one scan with the given points and average vertex
distance. -/
def viewerOfPoints (pts : List (Vector3d ℤ)) (avg : ℤ) : RegistrationViewer ℤ :=
  ⟨[meshOfPoints pts], [Transformation.identity], 0, 1, avg, []⟩

/-- The points `(10 i, 0, 0)` for `i < m`. -/
def spacedPts (m : Nat) : List (Vector3d ℤ) :=
  (List.range m).map (fun i => ⟨10 * (i : ℤ), 0, 0⟩)

/-- 169 points on a line, 10 apart, except that point 164 coincides with
point 0. -/
def loopPts : List (Vector3d ℤ) :=
  (List.range 169).map (fun i => if i = 164 then ⟨0, 0, 0⟩ else ⟨10 * (i : ℤ), 0, 0⟩)

/-- The indices `0, 4, ..., 164`. -/
def loopIndices : List Nat :=
  (List.range 42).map (fun k => 4 * k)

/-- Integer square root, exact on perfect squares. -/
def intSqrt (x : ℤ) : ℤ :=
  (((List.range (x.toNat + 1)).filter (fun k => decide (k * k ≤ x.toNat))).length : ℤ) - 1

/-- A mesh with the two vertices `(-d, 0, 0)` and `(d, 0, 0)`, centred at the
origin, joined by one edge (two halfedges) of length `2 d`. -/
def edgeMesh (d : ℤ) : Mesh ℤ :=
  ⟨[⟨⟨-d, 0, 0⟩, ⟨0, 0, 1⟩, true⟩, ⟨⟨d, 0, 0⟩, ⟨0, 0, 1⟩, true⟩], [(0, 1), (1, 0)]⟩

/-- The viewer as the constructor leaves it, with average vertex distance 0. -/
def freshViewer : RegistrationViewer ℤ :=
  ⟨[], [], 0, 0, 0, []⟩

/-- A stand-in for the normal angle on concrete inputs: 0 degrees between
equal normals, 90 degrees otherwise. -/
def flatAngle (a b : Vector3d ℤ) : Option ℤ :=
  if a = b then some 0 else some 90

/-- A stand-in for the evaluation of the chord formula in doubles on concrete
inputs: for the antiparallel normals `(1, 13, 13)` and `(-1, -13, -13)` the
value `length / 2` rounds to `1 + 2^-52` and `asin` returns NaN; every other
pair is treated as by `flatAngle`. -/
def nanAngle (a b : Vector3d ℤ) : Option ℤ :=
  if a = ⟨1, 13, 13⟩ ∧ b = ⟨-1, -13, -13⟩ then none else flatAngle a b

/-- Two processed scans that face each other: the target scan with the
vertices `(0, 0, 0)` and `(5, 0, 0)` and normal `(-1, -13, -13)`, the current
scan with the vertex `(0, 1, 0)` and the opposite normal `(1, 13, 13)`. -/
def facingViewer : RegistrationViewer ℤ :=
  ⟨[⟨[⟨⟨0, 0, 0⟩, ⟨-1, -13, -13⟩, false⟩, ⟨⟨5, 0, 0⟩, ⟨-1, -13, -13⟩, false⟩], []⟩,
      ⟨[⟨⟨0, 1, 0⟩, ⟨1, 13, 13⟩, false⟩], []⟩],
    [Transformation.identity, Transformation.identity], 1, 2, 1, []⟩

/-- A tetrahedron centred at the origin: a closed surface, so no vertex is on
the boundary; the normal of a vertex points along its position. -/
def tetraMesh : Mesh ℤ :=
  ⟨[⟨⟨1, 1, 1⟩, ⟨1, 1, 1⟩, false⟩, ⟨⟨1, -1, -1⟩, ⟨1, -1, -1⟩, false⟩,
      ⟨⟨-1, 1, -1⟩, ⟨-1, 1, -1⟩, false⟩, ⟨⟨-1, -1, 1⟩, ⟨-1, -1, 1⟩, false⟩],
    [(0, 1), (1, 0), (0, 2), (2, 0), (0, 3), (3, 0), (1, 2), (2, 1), (1, 3), (3, 1),
      (2, 3), (3, 2)]⟩

/-- The same tetrahedron loaded twice, both scans processed, the second one
current, identity transformations. -/
def twinViewer : RegistrationViewer ℤ :=
  ⟨[tetraMesh, tetraMesh], [Transformation.identity, Transformation.identity], 1, 2, 1, []⟩

/-- Two loaded scans, `(0, 0, 0), (5, 0, 0)` and `(0, 1, 0)`; both are
processed and the second one is current. -/
def pairViewer : RegistrationViewer ℤ :=
  ⟨[meshOfPoints [⟨0, 0, 0⟩, ⟨5, 0, 0⟩], meshOfPoints [⟨0, 1, 0⟩]],
    [Transformation.identity, Transformation.identity], 1, 2, 1, []⟩

/-- The translation by `(1, 0, 0)`. -/
def shiftX : Transformation ℤ :=
  ⟨⟨1, 0, 0⟩, ⟨0, 1, 0⟩, ⟨0, 0, 1⟩, ⟨1, 0, 0⟩⟩

/-- The state after loading two files of which the first could not be read
and the second holds the tetrahedron. -/
def halfLoadedViewer : RegistrationViewer ℤ :=
  (open_meshes intSqrt (fun x y => x / y) freshViewer [none, some tetraMesh]).2

/-- A table with the live elements 5, 6, 7. -/
def smallTable : randomaccesstable Nat :=
  ⟨[5, 6, 7, 0], 3⟩

section ListLemmas

theorem mem_drop_of_getElem? {α : Type} (l : List α) (m j : Nat) (b : α)
    (h : l[j]? = some b) (hm : m ≤ j) : b ∈ l.drop m := by
  have h1 : (l.drop m)[j - m]? = some b := by
    rw [List.getElem?_drop]
    have : m + (j - m) = j := by omega
    rw [this]
    exact h
  exact List.getElem?_mem h1

theorem aligned_length {α : Type} {pts : List α} {ind : List Nat} {ch : List α}
    (h : Aligned pts ind ch) : ch.length = ind.length := by
  have := congrArg List.length h
  simpa using this

theorem aligned_snoc {α : Type} {pts : List α} {ind : List Nat} {ch : List α}
    (h : Aligned pts ind ch) (i : Nat) (p : α) (hp : pts[i]? = some p) :
    Aligned pts (ind ++ [i]) (ch ++ [p]) := by
  unfold Aligned at *
  simp [h, hp]

theorem aligned_drop {α : Type} {pts : List α} {ind : List Nat} {ch : List α}
    (h : Aligned pts ind ch) (m : Nat) : Aligned pts (ind.drop m) (ch.drop m) := by
  unfold Aligned at *
  rw [List.map_drop, List.map_drop, h]

theorem aligned_of_mem_ind {α : Type} {pts : List α} {ind : List Nat} {ch : List α}
    (h : Aligned pts ind ch) (a : Nat) (ha : a ∈ ind) : ∃ q, q ∈ ch ∧ pts[a]? = some q := by
  have h1 : pts[a]? ∈ ind.map (fun a => pts[a]?) := List.mem_map_of_mem _ ha
  rw [← h] at h1
  obtain ⟨q, hq, hqe⟩ := List.mem_map.1 h1
  exact ⟨q, hq, hqe.symm⟩

theorem aligned_of_mem_ch {α : Type} {pts : List α} {ind : List Nat} {ch : List α}
    (h : Aligned pts ind ch) (q : α) (hq : q ∈ ch) : ∃ a, a ∈ ind ∧ pts[a]? = some q := by
  have h1 : some q ∈ ch.map some := List.mem_map_of_mem _ hq
  rw [h] at h1
  obtain ⟨a, ha, hae⟩ := List.mem_map.1 h1
  exact ⟨a, ha, hae⟩

theorem elemAt_eq_ok_iff {α : Type} (xs : List α) (i : Nat) (a : α) :
    elemAt xs i = .ok a ↔ xs[i]? = some a := by
  unfold elemAt
  split
  · rename_i b hb
    simp [hb]
  · rename_i hb
    simp [hb]

theorem elemAt_of_getElem? {α : Type} {xs : List α} {i : Nat} {a : α} (h : xs[i]? = some a) :
    elemAt xs i = .ok a :=
  (elemAt_eq_ok_iff xs i a).2 h

theorem getElem?_map_append_cons {α β : Type} (f : α → β) (pre suf : List α) (c : α) :
    ((pre ++ c :: suf).map f)[pre.length]? = some (f c) := by
  rw [List.map_append, List.getElem?_append_right (by simp)]
  simp

theorem ofList_push {K : Type} (cs : List (Candidate K)) (sp sn tp tn : Vector3d K) (d : K) :
    (Candidates.ofList cs).push sp sn tp tn d = Candidates.ofList (cs ++ [⟨sp, sn, tp, tn, d⟩]) := by
  simp [Candidates.ofList, Candidates.push]


theorem eraseAt_map_append_cons {α β : Type} (f : α → β) (pre suf : List α) (c : α) :
    eraseAt ((pre ++ c :: suf).map f) pre.length = .ok ((pre ++ suf).map f) := by
  unfold eraseAt
  rw [if_pos (by simp)]
  congr 1
  rw [List.map_append, List.eraseIdx_append_of_length_le (by simp)]
  simp


theorem getElem?_map_some {α β : Type} (f : α → β) (l : List α) (k : Nat) (x : β)
    (h : (l.map f)[k]? = some x) : ∃ a, l[k]? = some a ∧ f a = x := by
  rw [List.getElem?_map] at h
  cases hl : l[k]? with
  | none =>
    rw [hl] at h
    cases h
  | some a =>
    rw [hl] at h
    exact ⟨a, rfl, by simpa using h⟩

end ListLemmas

section SubsampleLemmas

variable {K : Type} [LinearOrderedCommRing K]

theorem lengthLt_eq_false_iff (p q : Vector3d K) (r : K) :
    lengthLt (p.sub q) r = false ↔ distGe p q r := by
  simp only [lengthLt, distGe, Bool.and_eq_false_iff, decide_eq_false_iff_not, not_lt]

/-- Over the reals the test `lengthLt` is the comparison of the Euclidean
length, the square root of `length2`, with the radius. -/
theorem lengthLt_iff_sqrt (v : Vector3d ℝ) (r : ℝ) :
    lengthLt v r = true ↔ Real.sqrt (length2 v) < r := by
  simp only [lengthLt, Bool.and_eq_true, decide_eq_true_eq]
  constructor
  · rintro ⟨hr, hlt⟩
    rw [Real.sqrt_lt' hr]
    nlinarith
  · intro h
    have hr : 0 < r := lt_of_le_of_lt (Real.sqrt_nonneg _) h
    refine ⟨hr, ?_⟩
    have := (Real.sqrt_lt' hr).1 h
    nlinarith

theorem length2_sub_comm (p q : Vector3d K) : length2 (p.sub q) = length2 (q.sub p) := by
  simp only [length2, Vector3d.sub]
  ring

theorem distGe_comm (p q : Vector3d K) (r : K) : distGe p q r ↔ distGe q p r := by
  simp only [distGe, length2_sub_comm p q]

/-- The window test of the loop body says that the examined point is far from
the window of kept indices. -/
theorem window_any_eq_false_iff {pts : List (Vector3d K)} {ind : List Nat}
    {ch : List (Vector3d K)} (h : Aligned pts ind ch) (r : K) (p : Vector3d K) :
    ((ch.drop (ch.length - 40)).any (fun c => lengthLt (p.sub c) r) = false) ↔
      farFromWindow pts r ind p := by
  have hd : Aligned pts (window ind) (ch.drop (ch.length - 40)) := by
    unfold window
    rw [← aligned_length h]
    exact aligned_drop h _
  rw [List.any_eq_false]
  constructor
  · intro hall a ha
    obtain ⟨q, hq, hqe⟩ := aligned_of_mem_ind hd a ha
    refine ⟨q, hqe, ?_⟩
    have := hall q hq
    rw [← lengthLt_eq_false_iff]
    simpa using this
  · intro hfar c hc
    obtain ⟨a, ha, hae⟩ := aligned_of_mem_ch hd c hc
    obtain ⟨q, hq, hdist⟩ := hfar a ha
    rw [hae] at hq
    cases hq
    rw [← lengthLt_eq_false_iff] at hdist
    simp [hdist]

/-- Every successful run of the loop is a run of the sweep relation. -/
theorem subsampleLoop_sweep (pts : List (Vector3d K)) (r : K) (n : Int) :
    ∀ (fuel i : Nat) (ind : List Nat) (ch : List (Vector3d K)) (res : List Nat),
      Aligned pts ind ch → subsampleLoop pts r n fuel i ind ch = .ok res →
      Sweep pts r n i ind res := by
  intro fuel
  induction fuel with
  | zero =>
    intro i ind ch res _ h
    unfold subsampleLoop at h
    split at h
    · cases h
    · rename_i hc
      cases h
      exact Sweep.done i ind hc
  | succ fuel ih =>
    intro i ind ch res hal h
    unfold subsampleLoop at h
    split at h
    · rename_i hc
      split at h
      · cases h
      · rename_i p hp
        simp only at h
        split at h
        · rename_i hw
          have hfar := (window_any_eq_false_iff hal r p).1 hw
          exact Sweep.keep i ind res p hc hp hfar (ih _ _ _ _ (aligned_snoc hal i p hp) h)
        · rename_i hw
          have hfar : ¬ farFromWindow pts r ind p := fun hf =>
            hw ((window_any_eq_false_iff hal r p).2 hf)
          exact Sweep.skip i ind res p hc hp hfar (ih _ _ _ _ hal h)
    · rename_i hc
      cases h
      exact Sweep.done i ind hc

/-- Shape of a sweep result: the kept indices are extended by a strictly
increasing list of examined indices. -/
theorem sweep_suffix {pts : List (Vector3d K)} {r : K} {n : Int} {i : Nat} {ind res : List Nat}
    (h : Sweep pts r n i ind res) :
    ∃ suf, res = ind ++ suf ∧ suf.Pairwise (fun a b => a < b) ∧
      ∀ a ∈ suf, i ≤ a ∧ a % 4 = i % 4 ∧ (a : Int) < n - 4 ∧ ∃ p, pts[a]? = some p := by
  induction h with
  | done i ind _ => exact ⟨[], by simp, List.Pairwise.nil, by simp⟩
  | keep i ind res p hc hp _ _ ih =>
    obtain ⟨suf, hres, hpw, hall⟩ := ih
    refine ⟨i :: suf, by simp [hres], ?_, ?_⟩
    · refine List.Pairwise.cons ?_ hpw
      intro a ha
      have := (hall a ha).1
      omega
    · intro a ha
      rcases List.mem_cons.1 ha with rfl | ha
      · exact ⟨le_refl _, rfl, hc, p, hp⟩
      · obtain ⟨h1, h2, h3, h4⟩ := hall a ha
        exact ⟨by omega, by omega, h3, h4⟩
  | skip i ind res p _ _ _ _ ih =>
    obtain ⟨suf, hres, hpw, hall⟩ := ih
    refine ⟨suf, hres, hpw, ?_⟩
    intro a ha
    obtain ⟨h1, h2, h3, h4⟩ := hall a ha
    exact ⟨by omega, by omega, h3, h4⟩

/-- Appending an index whose point is far from the window keeps the windowed
separation. -/
theorem winSep_snoc {pts : List (Vector3d K)} {r : K} {ind : List Nat} (h : WinSep pts r ind)
    (i : Nat) (p : Vector3d K) (hp : pts[i]? = some p) (hfar : farFromWindow pts r ind p) :
    WinSep pts r (ind ++ [i]) := by
  intro j k a b hjk hk hb ha
  have hklt : k < (ind ++ [i]).length := by
    by_contra hcon
    rw [List.getElem?_eq_none (by omega)] at ha
    cases ha
  simp only [List.length_append, List.length_singleton] at hklt
  have hb1 : ind[j]? = some b := by
    rw [List.getElem?_append_left (by omega)] at hb
    exact hb
  by_cases hk1 : k < ind.length
  · rw [List.getElem?_append_left hk1] at ha
    exact h j k a b hjk hk hb1 ha
  · have hke : k = ind.length := by omega
    subst hke
    rw [List.getElem?_append_right (le_refl _)] at ha
    simp only [Nat.sub_self, List.getElem?_cons_zero, Option.some.injEq] at ha
    subst ha
    have hmem : b ∈ window ind := by
      unfold window
      exact mem_drop_of_getElem? ind _ j b hb1 (by omega)
    obtain ⟨q, hq, hd⟩ := hfar b hmem
    exact ⟨p, q, hp, hq, hd⟩

/-- The sweep keeps the windowed separation of the kept indices. -/
theorem sweep_winSep {pts : List (Vector3d K)} {r : K} {n : Int} {i : Nat} {ind res : List Nat}
    (h : Sweep pts r n i ind res) : WinSep pts r ind → WinSep pts r res := by
  induction h with
  | done i ind _ => exact id
  | keep i ind res p _ hp hfar _ ih => exact fun hw => ih (winSep_snoc hw i p hp hfar)
  | skip i ind res p _ _ _ _ ih => exact ih

theorem winSep_singleton (pts : List (Vector3d K)) (r : K) (a : Nat) : WinSep pts r [a] := by
  intro j k x y hjk _ _ hx
  rw [List.getElem?_eq_none (by simp; omega)] at hx
  cases hx

/-- Unfolding `subsampleIndices`: a successful call is a sweep from `[0]`. -/
theorem subsampleIndices_sweep {meshes : List (Mesh K)} {avg : K} {pts : List (Vector3d K)}
    {idx : List Nat} (h : subsampleIndices meshes avg pts = .ok idx) :
    ∃ n p0, n_vertices_smallest meshes = .ok n ∧ pts[0]? = some p0 ∧
      Sweep pts (5 * avg) n 0 [0] idx := by
  unfold subsampleIndices at h
  simp only at h
  split at h
  · cases h
  · rename_i p0 hp0
    split at h
    · cases h
    · rename_i n hn
      refine ⟨n, p0, hn, hp0, ?_⟩
      refine subsampleLoop_sweep pts _ n _ 0 [0] [p0] idx ?_ h
      simp [Aligned, hp0]

theorem subsample_ok_iff {self : RegistrationViewer K} {pts : List (Vector3d K)}
    {idx : List Nat} {self1 : RegistrationViewer K} :
    subsample self pts = .ok (idx, self1) ↔
      subsampleIndices self.meshes_ self.averageVertexDistance_ pts = .ok idx ∧
        self1 = { self with sampledPoints_ := idx } := by
  unfold subsample
  split
  · rename_i e he
    simp [he]
  · rename_i l hl
    simp only [hl, Except.ok.injEq, Prod.mk.injEq]
    constructor
    · rintro ⟨rfl, rfl⟩
      exact ⟨rfl, rfl⟩
    · rintro ⟨rfl, rfl⟩
      exact ⟨rfl, rfl⟩

theorem keptBefore_append (ind suf : List Nat) (j : Nat) (h1 : ∀ a ∈ ind, a < j)
    (h2 : ∀ a ∈ suf, j ≤ a) : keptBefore (ind ++ suf) j = ind := by
  unfold keptBefore
  rw [List.filter_append]
  have e1 : ind.filter (fun a => decide (a < j)) = ind := by
    rw [List.filter_eq_self]
    intro a ha
    simpa using h1 a ha
  have e2 : suf.filter (fun a => decide (a < j)) = [] := by
    rw [List.filter_eq_nil_iff]
    intro a ha
    have := h2 a ha
    simp only [decide_eq_true_eq]
    omega
  rw [e1, e2, List.append_nil]

/-- Which indices a sweep adds: exactly the examined ones that are far from the
window of the indices kept before them. -/
theorem sweep_mem_iff {pts : List (Vector3d K)} {r : K} {n : Int} {i : Nat} {ind res : List Nat}
    (h : Sweep pts r n i ind res) :
    (∀ a ∈ ind, a < i ∨ a = 0) → ∀ j, i ≤ j → 0 < j →
      (j ∈ res ↔ j % 4 = i % 4 ∧ (j : Int) < n - 4 ∧
        ∃ p, pts[j]? = some p ∧ farFromWindow pts r (keptBefore res j) p) := by
  induction h with
  | done i ind hc =>
    intro hind j hij hj
    constructor
    · intro hm
      rcases hind j hm with h1 | h1 <;> omega
    · rintro ⟨_, h2, _⟩
      omega
  | keep i ind res p hc hp hfar hsw ih =>
    intro hind j hij hj
    obtain ⟨suf, hres, _, hall⟩ := sweep_suffix hsw
    have hkb : ∀ j, i ≤ j → 0 < j → j < i + 4 → keptBefore res j = ind ++ (if i < j then [i] else []) := by
      intro j hij hj hlt
      by_cases hi : i < j
      · rw [if_pos hi, hres]
        apply keptBefore_append
        · intro a ha
          rcases List.mem_append.1 ha with ha | ha
          · rcases hind a ha with h1 | h1 <;> omega
          · simp only [List.mem_singleton] at ha
            omega
        · intro a ha
          have := (hall a ha).1
          omega
      · rw [if_neg hi, hres, List.append_assoc, List.append_nil]
        apply keptBefore_append
        · intro a ha
          rcases hind a ha with h1 | h1 <;> omega
        · intro a ha
          rcases List.mem_append.1 ha with ha | ha
          · simp only [List.mem_singleton] at ha
            omega
          · have := (hall a ha).1
            omega
    by_cases hlt : j < i + 4
    · by_cases hji : j = i
      · subst hji
        constructor
        · intro _
          refine ⟨rfl, hc, p, hp, ?_⟩
          rw [hkb j (le_refl _) hj hlt, if_neg (lt_irrefl _), List.append_nil]
          exact hfar
        · intro _
          rw [hres]
          simp
      · constructor
        · intro hm
          rw [hres] at hm
          rcases List.mem_append.1 hm with hm | hm
          · rcases List.mem_append.1 hm with hm | hm
            · rcases hind j hm with h1 | h1 <;> omega
            · simp only [List.mem_singleton] at hm
              omega
          · have := (hall j hm).1
            omega
        · rintro ⟨h1, _⟩
          omega
    · have hind1 : ∀ a ∈ ind ++ [i], a < i + 4 ∨ a = 0 := by
        intro a ha
        rcases List.mem_append.1 ha with ha | ha
        · rcases hind a ha with h1 | h1
          · left; omega
          · right; exact h1
        · simp only [List.mem_singleton] at ha
          left; omega
      rw [ih hind1 j (by omega) hj]
      constructor <;> rintro ⟨h1, h2⟩ <;> exact ⟨by omega, h2⟩
  | skip i ind res p hc hp hfar hsw ih =>
    intro hind j hij hj
    obtain ⟨suf, hres, _, hall⟩ := sweep_suffix hsw
    by_cases hlt : j < i + 4
    · have hnot : j ∉ res := by
        intro hm
        rw [hres] at hm
        rcases List.mem_append.1 hm with hm | hm
        · rcases hind j hm with h1 | h1 <;> omega
        · have := (hall j hm).1
          omega
      constructor
      · intro hm
        exact absurd hm hnot
      · rintro ⟨h1, _, q, hq, hqf⟩
        have hji : j = i := by omega
        subst hji
        exfalso
        rw [hp] at hq
        cases hq
        apply hfar
        have hk : keptBefore res j = ind := by
          rw [hres]
          apply keptBefore_append
          · intro a ha
            rcases hind a ha with h1 | h1 <;> omega
          · intro a ha
            have := (hall a ha).1
            omega
        rw [hk] at hqf
        exact hqf
    · have hind1 : ∀ a ∈ ind, a < i + 4 ∨ a = 0 := by
        intro a ha
        rcases hind a ha with h1 | h1
        · left; omega
        · right; exact h1
      rw [ih hind1 j (by omega) hj]
      constructor <;> rintro ⟨h1, h2⟩ <;> exact ⟨by omega, h2⟩

/-- The loop returns whenever the bound `n` does not exceed the number of
points and the iteration bound covers the remaining indices. -/
theorem subsampleLoop_total (pts : List (Vector3d K)) (r : K) (n : Int)
    (hn : n ≤ (pts.length : Int)) :
    ∀ (fuel i : Nat) (ind : List Nat) (ch : List (Vector3d K)),
      n - 4 ≤ (i : Int) + 4 * (fuel : Int) →
      ∃ res, subsampleLoop pts r n fuel i ind ch = .ok res := by
  intro fuel
  induction fuel with
  | zero =>
    intro i ind ch hf
    unfold subsampleLoop
    rw [if_neg (by omega)]
    exact ⟨_, rfl⟩
  | succ fuel ih =>
    intro i ind ch hf
    unfold subsampleLoop
    split
    · have hi : i < pts.length := by omega
      rw [List.getElem?_eq_getElem hi]
      simp only
      split
      · exact ih _ _ _ (by push_cast at hf ⊢; omega)
      · exact ih _ _ _ (by push_cast at hf ⊢; omega)
    · exact ⟨_, rfl⟩

/-- With a positive radius the first sweep step rejects index 0 again, so the
result is strictly increasing. -/
theorem sweep_pairwise_of_pos {pts : List (Vector3d K)} {r : K} {n : Int} {idx : List Nat}
    {p0 : Vector3d K} (hp0 : pts[0]? = some p0) (hr : 0 < r)
    (h : Sweep pts r n 0 [0] idx) :
    idx.Pairwise (fun a b => a < b) ∧ idx.head? = some 0 := by
  have key : ∀ {res : List Nat}, Sweep pts r n (0 + 4) [0] res →
      res.Pairwise (fun a b => a < b) ∧ res.head? = some 0 := by
    intro res hs
    obtain ⟨suf, hres, hpw, hall⟩ := sweep_suffix hs
    subst hres
    refine ⟨?_, rfl⟩
    simp only [List.singleton_append, List.pairwise_cons]
    refine ⟨?_, hpw⟩
    intro a ha
    have := (hall a ha).1
    omega
  cases h with
  | done _ => exact ⟨by simp, rfl⟩
  | keep _ _ _ p hc hp hfar hsw =>
    exfalso
    rw [hp0] at hp
    cases hp
    obtain ⟨q, hq, hd⟩ := hfar 0 (by simp [window])
    rw [hp0] at hq
    cases hq
    have h0 : length2 (p0.sub p0) = 0 := by simp [length2, Vector3d.sub]
    rcases hd with hd | hd
    · exact absurd hr (not_lt.2 hd)
    · rw [h0] at hd
      have : 0 < r * r := mul_pos hr hr
      exact absurd this (not_lt.2 hd)
  | skip _ _ _ p hc hp hfar hsw => exact key hsw

end SubsampleLemmas

section PruneLemmas

variable {K : Type} [LinearOrderedCommRing K]

/-- The marking loop replaces the recorded distance of every rejected
candidate by the tombstone and leaves the others. -/
theorem markLoop_ofList (angleDeg : Vector3d K → Vector3d K → Option K) :
    ∀ (suf pre : List (Candidate K)) (done : List K), done.length = pre.length →
      markLoop angleDeg ((pre ++ suf).map (fun c => c.srcNormal))
          ((pre ++ suf).map (fun c => c.targetNormal))
          (List.range' pre.length suf.length) (done ++ suf.map (fun c => c.dis2))
        = .ok (done ++ suf.map (fun c => (marked angleDeg c).dis2)) := by
  intro suf
  induction suf with
  | nil =>
    intro pre done _
    simp [markLoop]
  | cons c suf ih =>
    intro pre done hlen
    have h1 := getElem?_map_append_cons (fun c : Candidate K => c.srcNormal) pre suf c
    have h2 := getElem?_map_append_cons (fun c : Candidate K => c.targetNormal) pre suf c
    have h3 : (done ++ (c :: suf).map (fun c => c.dis2))[pre.length]? = some c.dis2 := by
      rw [List.getElem?_append_right (by omega)]
      simp [hlen]
    have hassoc : pre ++ c :: suf = (pre ++ [c]) ++ suf := by simp
    rw [List.length_cons, List.range'_succ]
    unfold markLoop
    rw [elemAt_of_getElem? h1, elemAt_of_getElem? h2, elemAt_of_getElem? h3]
    simp only
    have hih := ih (pre ++ [c]) (done ++ [(marked angleDeg c).dis2]) (by simp [hlen])
    rw [← hassoc] at hih
    simp only [List.length_append, List.length_singleton, List.append_assoc,
      List.singleton_append] at hih
    split
    · rename_i hrej
      have hm : (marked angleDeg c).dis2 = tombstone := by
        have hr : rejected angleDeg c := hrej
        unfold marked
        rw [if_pos hr]
      have hset : (done ++ (c :: suf).map (fun c => c.dis2)).set pre.length tombstone
          = done ++ tombstone :: suf.map (fun c => c.dis2) := by
        rw [List.set_append_right _ _ (by omega)]
        simp [hlen]
      rw [hset, List.map_cons, hm]
      rw [hm] at hih
      exact hih
    · rename_i hrej
      have hm : (marked angleDeg c).dis2 = c.dis2 := by
        have hr : ¬ rejected angleDeg c := hrej
        unfold marked
        rw [if_neg hr]
      rw [List.map_cons, List.map_cons, hm]
      rw [hm] at hih
      exact hih

/-- The erasing loop removes exactly the positions that carry the tombstone,
in all five vectors, and keeps the order of the others. -/
theorem eraseLoop_ofList :
    ∀ (suf pre : List (Candidate K)) (fuel : Nat), suf.length ≤ fuel →
      eraseLoop fuel pre.length (Candidates.ofList (pre ++ suf))
        = .ok (Candidates.ofList
            (pre ++ suf.filter (fun c => decide (c.dis2 ≠ tombstone)))) := by
  intro suf
  induction suf with
  | nil =>
    intro pre fuel _
    have hnone : (Candidates.ofList (pre ++ [])).src_target_dis2[pre.length]? = none := by
      simp [Candidates.ofList]
    cases fuel with
    | zero =>
      unfold eraseLoop
      rw [hnone]
      simp
    | succ fuel =>
      unfold eraseLoop
      rw [hnone]
      simp
  | cons c suf ih =>
    intro pre fuel hfuel
    have hsome : (Candidates.ofList (pre ++ c :: suf)).src_target_dis2[pre.length]?
        = some c.dis2 :=
      getElem?_map_append_cons (fun c : Candidate K => c.dis2) pre suf c
    cases fuel with
    | zero => simp at hfuel
    | succ fuel =>
      have hfuel1 : suf.length ≤ fuel := by simpa using hfuel
      unfold eraseLoop
      rw [hsome]
      simp only
      by_cases hd : c.dis2 = tombstone
      · rw [if_pos hd]
        have e1 := eraseAt_map_append_cons (fun c : Candidate K => c.srcPt) pre suf c
        have e2 := eraseAt_map_append_cons (fun c : Candidate K => c.srcNormal) pre suf c
        have e3 := eraseAt_map_append_cons (fun c : Candidate K => c.targetPt) pre suf c
        have e4 := eraseAt_map_append_cons (fun c : Candidate K => c.targetNormal) pre suf c
        have e5 := eraseAt_map_append_cons (fun c : Candidate K => c.dis2) pre suf c
        simp only [Candidates.ofList] at e1 e2 e3 e4 e5 ⊢
        rw [e1, e2, e3, e4, e5]
        simp only
        have hih := ih pre fuel hfuel1
        simp only [Candidates.ofList] at hih
        rw [hih]
        simp [hd]
      · rw [if_neg hd]
        have hih := ih (pre ++ [c]) fuel hfuel1
        simp only [List.length_append, List.length_singleton, List.append_assoc,
          List.singleton_append] at hih
        rw [hih]
        simp [hd]

theorem marked_fields (angleDeg : Vector3d K → Vector3d K → Option K) (c : Candidate K) :
    (marked angleDeg c).srcPt = c.srcPt ∧ (marked angleDeg c).srcNormal = c.srcNormal ∧
      (marked angleDeg c).targetPt = c.targetPt ∧
      (marked angleDeg c).targetNormal = c.targetNormal := by
  unfold marked
  split <;> exact ⟨rfl, rfl, rfl, rfl⟩

theorem filter_marked (angleDeg : Vector3d K → Vector3d K → Option K) (cs : List (Candidate K)) :
    (cs.map (marked angleDeg)).filter (fun c => decide (c.dis2 ≠ tombstone))
      = cs.filter (survives angleDeg) := by
  induction cs with
  | nil => rfl
  | cons c cs ih =>
    rw [List.map_cons, List.filter_cons, List.filter_cons, ih]
    by_cases hr : rejected angleDeg c
    · have h1 : (marked angleDeg c).dis2 = tombstone := by
        unfold marked
        rw [if_pos hr]
      have h2 : survives angleDeg c = false := by
        simp [survives, hr]
      simp [h1, h2]
    · have h1 : marked angleDeg c = c := by
        unfold marked
        rw [if_neg hr]
      have h2 : survives angleDeg c = decide (c.dis2 ≠ tombstone) := by
        simp [survives, hr]
      rw [h1, h2]

/-- The pruning keeps, in order, exactly the candidates that are not rejected
and whose recorded squared distance is not the tombstone value 0. -/
theorem prune_ofList (angleDeg : Vector3d K → Vector3d K → Option K) (cs : List (Candidate K)) :
    prune angleDeg (Candidates.ofList cs)
      = .ok (Candidates.ofList (cs.filter (survives angleDeg))) := by
  have hmark := markLoop_ofList angleDeg cs [] [] rfl
  simp only [List.nil_append, List.length_nil] at hmark
  have hmarked : ({ Candidates.ofList cs with
      src_target_dis2 := cs.map (fun c => (marked angleDeg c).dis2) } : Candidates K)
        = Candidates.ofList (cs.map (marked angleDeg)) := by
    simp only [Candidates.ofList, List.map_map]
    have f1 : ((fun c : Candidate K => c.srcPt) ∘ marked angleDeg) = fun c => c.srcPt := by
      funext c; exact (marked_fields angleDeg c).1
    have f2 : ((fun c : Candidate K => c.srcNormal) ∘ marked angleDeg) = fun c => c.srcNormal := by
      funext c; exact (marked_fields angleDeg c).2.1
    have f3 : ((fun c : Candidate K => c.targetPt) ∘ marked angleDeg) = fun c => c.targetPt := by
      funext c; exact (marked_fields angleDeg c).2.2.1
    have f4 : ((fun c : Candidate K => c.targetNormal) ∘ marked angleDeg)
        = fun c => c.targetNormal := by
      funext c; exact (marked_fields angleDeg c).2.2.2
    rw [f1, f2, f3, f4]
    rfl
  have herase := eraseLoop_ofList (cs.map (marked angleDeg)) [] cs.length (by simp)
  simp only [List.nil_append, List.length_nil] at herase
  unfold prune
  simp only
  have hsize : (Candidates.ofList cs).srcCandidateNormals.length = cs.length := by
    simp [Candidates.ofList]
  rw [hsize, List.range_eq_range']
  have hd : (Candidates.ofList cs).src_target_dis2 = cs.map (fun c => c.dis2) := rfl
  have hn1 : (Candidates.ofList cs).srcCandidateNormals = cs.map (fun c => c.srcNormal) := rfl
  have hn2 : (Candidates.ofList cs).targetCandidateNormals
      = cs.map (fun c => c.targetNormal) := rfl
  rw [hd, hn1, hn2, hmark]
  simp only [List.length_map]
  have hgoal : (⟨(Candidates.ofList cs).srcCandidatePts, cs.map (fun c => c.srcNormal),
      (Candidates.ofList cs).targetCandidatePts, cs.map (fun c => c.targetNormal),
      cs.map (fun c => (marked angleDeg c).dis2)⟩ : Candidates K)
        = Candidates.ofList (cs.map (marked angleDeg)) := hmarked
  rw [hgoal, herase, filter_marked]

end PruneLemmas

section CollectLemmas

variable {K : Type} [LinearOrderedCommRing K]

/-- The inner loop appends, in the order of the sampled indices, the candidate
of every index that has one. -/
theorem matchLoop_ofList (sP sN tP tN : List (Vector3d K)) (tB : List Bool) :
    ∀ (idx : List Nat) (acc : List (Candidate K)) (c1 : Candidates K),
      matchLoop sP sN tP tN tB idx (Candidates.ofList acc) = .ok c1 →
      c1 = Candidates.ofList (acc ++ idx.filterMap (matchCandidate sP sN tP tN tB)) := by
  intro idx
  induction idx with
  | nil =>
    intro acc c1 h
    unfold matchLoop at h
    cases h
    simp
  | cons index rest ih =>
    intro acc c1 h
    unfold matchLoop at h
    split at h
    · cases h
    · rename_i sp hsp
      rw [elemAt_eq_ok_iff] at hsp
      split at h
      · cases h
      · rename_i best hbest
        split at h
        · cases h
        · rename_i border hb
          rw [elemAt_eq_ok_iff] at hb
          split at h
          · rename_i hfalse
            subst hfalse
            split at h
            · rename_i sn tp tn hsn htp htn
              rw [elemAt_eq_ok_iff] at hsn htp htn
              have hmc : matchCandidate sP sN tP tN tB index
                  = some ⟨sp, sn, tp, tn, length2 (sp.sub tp)⟩ := by
                simp [matchCandidate, hsp, hbest, hb, hsn, htp, htn]
              rw [ofList_push] at h
              rw [ih _ _ h, List.filterMap_cons, hmc]
              simp
            · cases h
          · rename_i htrue
            have hbt : border = true := by simpa using htrue
            subst hbt
            have hmc : matchCandidate sP sN tP tN tB index = none := by
              simp [matchCandidate, hsp, hbest, hb]
            rw [ih _ _ h, List.filterMap_cons, hmc]

/-- The outer loop appends the candidates of every visited scan other than the
current one, in visiting order. -/
theorem scanLoop_ofList (self : RegistrationViewer K) (sP sN : List (Vector3d K))
    (idx : List Nat) :
    ∀ (l : List Nat) (acc : List (Candidate K)) (c1 : Candidates K),
      scanLoop self sP sN idx l (Candidates.ofList acc) = .ok c1 →
      c1 = Candidates.ofList
        (acc ++ (l.filter (fun i => decide (i ≠ self.currIndex_))).flatMap
          (scanCandidates self sP sN idx)) := by
  intro l
  induction l with
  | nil =>
    intro acc c1 h
    unfold scanLoop at h
    cases h
    simp
  | cons i rest ih =>
    intro acc c1 h
    unfold scanLoop at h
    split at h
    · rename_i hi
      rw [ih _ _ h, List.filter_cons]
      simp [hi]
    · rename_i hi
      split at h
      · rename_i mesh tr hm ht
        rw [elemAt_eq_ok_iff] at hm ht
        simp only at h
        split at h
        · cases h
        · rename_i c2 hc2
          have h2 := matchLoop_ofList _ _ _ _ _ _ _ _ hc2
          subst h2
          rw [ih _ _ h, List.filter_cons]
          have hsc : scanCandidates self sP sN idx i
              = idx.filterMap (matchCandidate sP sN (tr.transformPoints (get_points mesh))
                  (tr.transformVectors (get_normals mesh)) (get_borders mesh)) := by
            simp [scanCandidates, hm, ht]
          simp [hi, hsc]
      · cases h

theorem accumulationOrder_congr (self self1 : RegistrationViewer K) (idx0 : List Nat)
    (h : self1 = { self with sampledPoints_ := idx0 }) (sP sN : List (Vector3d K))
    (idx : List Nat) :
    accumulationOrder self1 sP sN idx = accumulationOrder self sP sN idx := by
  subst h
  rfl

/-- A successful candidate collection: the current scan is subsampled and the
collected vectors hold the candidate list in accumulation order. -/
theorem collectCandidates_ok {self self1 : RegistrationViewer K} {c : Candidates K}
    (h : collectCandidates self = .ok (c, self1)) :
    ∃ mesh tr idx, self.meshes_[self.currIndex_]? = some mesh ∧
      self.transformations_[self.currIndex_]? = some tr ∧
      subsample self (tr.transformPoints (get_points mesh)) = .ok (idx, self1) ∧
      c = Candidates.ofList (accumulationOrder self (tr.transformPoints (get_points mesh))
        (tr.transformVectors (get_normals mesh)) idx) := by
  unfold collectCandidates at h
  split at h
  · rename_i mesh tr hm ht
    rw [elemAt_eq_ok_iff] at hm ht
    simp only at h
    split at h
    · cases h
    · rename_i idx self2 hsub
      split at h
      · cases h
      · rename_i c2 hc2
        cases h
        refine ⟨mesh, tr, idx, hm, ht, hsub, ?_⟩
        have h2 := scanLoop_ofList self1 _ _ idx _ [] c hc2
        rw [h2, List.nil_append]
        have hself := (subsample_ok_iff.1 hsub).2
        rw [← accumulationOrder_congr self self1 idx hself]
        rfl
  · cases h

/-- A successful call of `calculate_correspondences`: the three output vectors
are the components of the surviving candidates, in accumulation order. -/
theorem calculate_correspondences_ok {angleDeg : Vector3d K → Vector3d K → Option K}
    {self self1 : RegistrationViewer K} {a b c : List (Vector3d K)} {out : Correspondences K}
    (h : calculate_correspondences angleDeg self a b c = .ok (out, self1)) :
    ∃ mesh tr idx, self.meshes_[self.currIndex_]? = some mesh ∧
      self.transformations_[self.currIndex_]? = some tr ∧
      subsample self (tr.transformPoints (get_points mesh)) = .ok (idx, self1) ∧
      collectCandidates self = .ok (Candidates.ofList
        (accumulationOrder self (tr.transformPoints (get_points mesh))
          (tr.transformVectors (get_normals mesh)) idx), self1) ∧
      out = ⟨((accumulationOrder self (tr.transformPoints (get_points mesh))
                (tr.transformVectors (get_normals mesh)) idx).filter
                  (survives angleDeg)).map (fun c => c.srcPt),
             ((accumulationOrder self (tr.transformPoints (get_points mesh))
                (tr.transformVectors (get_normals mesh)) idx).filter
                  (survives angleDeg)).map (fun c => c.targetPt),
             ((accumulationOrder self (tr.transformPoints (get_points mesh))
                (tr.transformVectors (get_normals mesh)) idx).filter
                  (survives angleDeg)).map (fun c => c.targetNormal)⟩ := by
  unfold calculate_correspondences at h
  simp only at h
  split at h
  · cases h
  · rename_i c0 self2 hcol
    obtain ⟨mesh, tr, idx, hm, ht, hsub, hc⟩ := collectCandidates_ok hcol
    subst hc
    rw [prune_ofList] at h
    simp only [Except.ok.injEq, Prod.mk.injEq] at h
    obtain ⟨h1, h2⟩ := h
    subst h1 h2
    exact ⟨mesh, tr, idx, hm, ht, hsub, hcol, rfl⟩

/-- What a candidate of one sampled index records. -/
theorem matchCandidate_some {sP sN tP tN : List (Vector3d K)} {tB : List Bool} {index : Nat}
    {cand : Candidate K} (h : matchCandidate sP sN tP tN tB index = some cand) :
    ∃ best, sP[index]? = some cand.srcPt ∧ sN[index]? = some cand.srcNormal ∧
      getClosestPoint tP cand.srcPt = .ok best ∧ tB[best]? = some false ∧
      tP[best]? = some cand.targetPt ∧ tN[best]? = some cand.targetNormal ∧
      cand.dis2 = length2 (cand.srcPt.sub cand.targetPt) := by
  unfold matchCandidate at h
  split at h
  · cases h
  · rename_i sp hsp
    split at h
    · cases h
    · rename_i best hbest
      split at h
      · rename_i sn tp tn hb hsn htp htn
        cases h
        exact ⟨best, hsp, hsn, hbest, hb, htp, htn, rfl⟩
      · cases h

/-- Where a candidate of the accumulated list comes from. -/
theorem mem_accumulationOrder {self : RegistrationViewer K} {sP sN : List (Vector3d K)}
    {idx : List Nat} {cand : Candidate K} (h : cand ∈ accumulationOrder self sP sN idx) :
    ∃ i mesh tr index, i < self.numProcessed_ ∧ i ≠ self.currIndex_ ∧
      self.meshes_[i]? = some mesh ∧ self.transformations_[i]? = some tr ∧ index ∈ idx ∧
      matchCandidate sP sN (tr.transformPoints (get_points mesh))
        (tr.transformVectors (get_normals mesh)) (get_borders mesh) index = some cand := by
  unfold accumulationOrder targetScans at h
  rw [List.mem_flatMap] at h
  obtain ⟨i, hi, hc⟩ := h
  rw [List.mem_filter] at hi
  obtain ⟨hir, hic⟩ := hi
  have hlt : i < self.numProcessed_ := List.mem_range.1 hir
  have hne : i ≠ self.currIndex_ := by simpa using hic
  unfold scanCandidates at hc
  split at hc
  · rename_i mesh tr hm ht
    rw [List.mem_filterMap] at hc
    obtain ⟨index, hidx, hmc⟩ := hc
    exact ⟨i, mesh, tr, index, hlt, hne, hm, ht, hidx, hmc⟩
  · cases hc

/-- A possibly NaN value is not greater than the threshold exactly when it is
NaN or at most the threshold. -/
theorem not_gtNaN_iff (x : Option K) (thresh : K) :
    ¬ gtNaN x thresh ↔ x = none ∨ ∃ v, x = some v ∧ v ≤ thresh := by
  cases x with
  | none => simp [gtNaN]
  | some v => simp [gtNaN]

theorem survives_iff (angleDeg : Vector3d K → Vector3d K → Option K) (c : Candidate K) :
    survives angleDeg c = true ↔
      c.dis2 ≤ 3 ∧
        (angleDeg c.srcNormal c.targetNormal = none ∨
          ∃ v, angleDeg c.srcNormal c.targetNormal = some v ∧ v ≤ 60) ∧
        c.dis2 ≠ 0 := by
  rw [← not_gtNaN_iff]
  simp only [survives, rejected, distMedianThresh, normalCompatabilityThresh, tombstone,
    Bool.and_eq_true, decide_eq_true_eq, not_or, not_lt, gt_iff_lt, and_assoc]

/-- A boundary match adds nothing: the inner loop passes over a sampled index
whose closest target point is a boundary point. -/
theorem matchLoop_boundary (sP sN tP tN : List (Vector3d K)) (tB : List Bool)
    (index : Nat) (rest : List Nat) (c : Candidates K) (sp : Vector3d K) (best : Nat)
    (hsp : sP[index]? = some sp) (hbest : getClosestPoint tP sp = .ok best)
    (hb : tB[best]? = some true) :
    matchLoop sP sN tP tN tB (index :: rest) c = matchLoop sP sN tP tN tB rest c := by
  conv_lhs => unfold matchLoop
  rw [elemAt_of_getElem? hsp]
  simp only
  rw [hbest]
  simp only
  rw [elemAt_of_getElem? hb]
  simp

/-- The outer loop does nothing when every visited index is the current one. -/
theorem scanLoop_skip (self : RegistrationViewer K) (sP sN : List (Vector3d K))
    (idx : List Nat) (c : Candidates K) :
    ∀ l : List Nat, (∀ i ∈ l, i = self.currIndex_) → scanLoop self sP sN idx l c = .ok c := by
  intro l
  induction l with
  | nil =>
    intro _
    unfold scanLoop
    rfl
  | cons i rest ih =>
    intro hall
    unfold scanLoop
    rw [if_pos (hall i (List.mem_cons_self _ _))]
    exact ih (fun j hj => hall j (List.mem_cons_of_mem _ hj))

theorem foldl_smallest_le {K : Type} (l : List (Mesh K)) :
    ∀ init : Int,
      l.foldl (fun n m => if (m.n_vertices : Int) < n then (m.n_vertices : Int) else n) init
          ≤ init ∧
        ∀ m ∈ l,
          l.foldl (fun n m => if (m.n_vertices : Int) < n then (m.n_vertices : Int) else n) init
            ≤ (m.n_vertices : Int) := by
  induction l with
  | nil =>
    intro init
    simp
  | cons m0 l ih =>
    intro init
    rw [List.foldl_cons]
    obtain ⟨h1, h2⟩ := ih (if (m0.n_vertices : Int) < init then (m0.n_vertices : Int) else init)
    refine ⟨?_, ?_⟩
    · refine le_trans h1 ?_
      split <;> omega
    · intro m hm
      rcases List.mem_cons.1 hm with rfl | hm
      · refine le_trans h1 ?_
        split <;> omega
      · exact h2 m hm

/-- The smallest vertex count exists for a non-empty mesh list and is at most
the vertex count of each mesh. -/
theorem n_vertices_smallest_le {K : Type} {meshes : List (Mesh K)} {m : Mesh K} (hm : m ∈ meshes) :
    ∃ n, n_vertices_smallest meshes = .ok n ∧ n ≤ (m.n_vertices : Int) := by
  cases meshes with
  | nil => cases hm
  | cons m0 l =>
    refine ⟨_, rfl, ?_⟩
    exact (foldl_smallest_le (m0 :: l) _).2 m hm

/-- The sweep returns on the points of any loaded scan that has a vertex. -/
theorem subsampleIndices_total {meshes : List (Mesh K)} (avg : K) {pts : List (Vector3d K)}
    {m : Mesh K} (hm : m ∈ meshes) (hlen : m.n_vertices ≤ pts.length) (hne : pts ≠ []) :
    ∃ idx, subsampleIndices meshes avg pts = .ok idx := by
  obtain ⟨n, hn, hle⟩ := n_vertices_smallest_le hm
  unfold subsampleIndices
  simp only
  cases pts with
  | nil => exact absurd rfl hne
  | cons p0 ps =>
    simp only [List.length_cons, Nat.zero_lt_succ, List.getElem?_eq_getElem,
      List.getElem_cons_zero]
    rw [hn]
    simp only
    refine subsampleLoop_total (p0 :: ps) _ n ?_ _ _ _ _ ?_
    · have : (m.n_vertices : Int) ≤ ((p0 :: ps).length : Int) := by exact_mod_cast hlen
      omega
    · have := Int.self_le_toNat n
      omega

/-- The linear scan returns an index below the number of points seen. -/
theorem closestScan_lt (q : Vector3d K) :
    ∀ (ps : List (Vector3d K)) (i best : Nat) (d : K), best < i →
      closestScan q ps i best d < i + ps.length := by
  intro ps
  induction ps with
  | nil =>
    intro i best d h
    unfold closestScan
    simpa using h
  | cons p ps ih =>
    intro i best d h
    unfold closestScan
    split
    · have := ih (i + 1) i (length2 (p.sub q)) (Nat.lt_succ_self i)
      simp only [List.length_cons]
      omega
    · have := ih (i + 1) best d (by omega)
      simp only [List.length_cons]
      omega

/-- The closest-point query returns on a non-empty point set, with an index
into it. -/
theorem getClosestPoint_total (points : List (Vector3d K)) (q : Vector3d K)
    (hne : points ≠ []) : ∃ best, getClosestPoint points q = .ok best ∧ best < points.length := by
  cases points with
  | nil => exact absurd rfl hne
  | cons p0 ps =>
    refine ⟨_, rfl, ?_⟩
    have := closestScan_lt q ps 1 0 (length2 (p0.sub q)) (by omega)
    simp only [List.length_cons]
    omega

/-- The inner loop returns when the sampled indices are indices of the source
scan and the target scan is non-empty. -/
theorem matchLoop_total (sP sN tP tN : List (Vector3d K)) (tB : List Bool)
    (hsN : sN.length = sP.length) (htN : tN.length = tP.length) (htB : tB.length = tP.length)
    (hne : tP ≠ []) :
    ∀ (idx : List Nat) (c : Candidates K), (∀ a ∈ idx, a < sP.length) →
      ∃ c1, matchLoop sP sN tP tN tB idx c = .ok c1 := by
  intro idx
  induction idx with
  | nil =>
    intro c _
    exact ⟨c, by unfold matchLoop; rfl⟩
  | cons index rest ih =>
    intro c hidx
    have hi : index < sP.length := hidx index (List.mem_cons_self _ _)
    have hrest : ∀ a ∈ rest, a < sP.length := fun a ha => hidx a (List.mem_cons_of_mem _ ha)
    obtain ⟨best, hbest, hlt⟩ := getClosestPoint_total tP sP[index] hne
    have e1 : elemAt sP index = .ok sP[index] :=
      elemAt_of_getElem? (List.getElem?_eq_getElem hi)
    have hb2 : best < tB.length := by omega
    have hb3 : index < sN.length := by omega
    have hb5 : best < tN.length := by omega
    have e2 : elemAt tB best = .ok tB[best] :=
      elemAt_of_getElem? (List.getElem?_eq_getElem hb2)
    have e3 : elemAt sN index = .ok sN[index] :=
      elemAt_of_getElem? (List.getElem?_eq_getElem hb3)
    have e4 : elemAt tP best = .ok tP[best] :=
      elemAt_of_getElem? (List.getElem?_eq_getElem hlt)
    have e5 : elemAt tN best = .ok tN[best] :=
      elemAt_of_getElem? (List.getElem?_eq_getElem hb5)
    unfold matchLoop
    rw [e1]
    simp only
    rw [hbest]
    simp only
    rw [e2]
    simp only
    split
    · rw [e3, e4, e5]
      exact ih _ hrest
    · exact ih _ hrest

/-- The outer loop returns when every visited scan other than the current one
is a loaded, non-empty scan with a transformation. -/
theorem scanLoop_total (self : RegistrationViewer K) (sP sN : List (Vector3d K))
    (idx : List Nat) (hsN : sN.length = sP.length) (hidx : ∀ a ∈ idx, a < sP.length) :
    ∀ (l : List Nat) (c : Candidates K),
      (∀ i ∈ l, i ≠ self.currIndex_ →
        ∃ mesh tr, self.meshes_[i]? = some mesh ∧ self.transformations_[i]? = some tr ∧
          mesh.vertices ≠ []) →
      ∃ c1, scanLoop self sP sN idx l c = .ok c1 := by
  intro l
  induction l with
  | nil =>
    intro c _
    exact ⟨c, by unfold scanLoop; rfl⟩
  | cons i rest ih =>
    intro c hall
    have hrest : ∀ j ∈ rest, j ≠ self.currIndex_ →
        ∃ mesh tr, self.meshes_[j]? = some mesh ∧ self.transformations_[j]? = some tr ∧
          mesh.vertices ≠ [] := fun j hj => hall j (List.mem_cons_of_mem _ hj)
    unfold scanLoop
    split
    · exact ih c hrest
    · rename_i hi
      obtain ⟨mesh, tr, hm, htr, hne⟩ := hall i (List.mem_cons_self _ _) hi
      rw [elemAt_of_getElem? hm, elemAt_of_getElem? htr]
      simp only
      obtain ⟨c1, hc1⟩ := matchLoop_total sP sN (tr.transformPoints (get_points mesh))
        (tr.transformVectors (get_normals mesh)) (get_borders mesh) hsN
        (by simp [Transformation.transformPoints, Transformation.transformVectors, get_points,
          get_normals])
        (by simp [Transformation.transformPoints, get_points, get_borders])
        (by simp [Transformation.transformPoints, get_points, hne]) idx c hidx
      rw [hc1]
      exact ih c1 hrest

/-- Every index returned by the sweep is an index of the point sequence. -/
theorem subsampleIndices_lt {meshes : List (Mesh K)} {avg : K} {pts : List (Vector3d K)}
    {idx : List Nat} (h : subsampleIndices meshes avg pts = .ok idx) :
    ∀ a ∈ idx, a < pts.length := by
  obtain ⟨n, p0, _, hp0, hsw⟩ := subsampleIndices_sweep h
  obtain ⟨suf, hres, _, hall⟩ := sweep_suffix hsw
  intro a ha
  rw [hres] at ha
  have hsome : ∃ p, pts[a]? = some p := by
    rcases List.mem_append.1 ha with h1 | h1
    · simp only [List.mem_singleton] at h1
      subst h1
      exact ⟨p0, hp0⟩
    · exact (hall a h1).2.2.2
  obtain ⟨p, hp⟩ := hsome
  by_contra hcon
  rw [List.getElem?_eq_none (by omega)] at hp
  cases hp

/-- The method `calculate_correspondences` returns whenever the current scan
and every other processed scan is a loaded scan with at least one vertex and a
transformation. -/
theorem calculate_correspondences_total (angleDeg : Vector3d K → Vector3d K → Option K)
    (self : RegistrationViewer K) (a b c : List (Vector3d K))
    (mesh : Mesh K) (tr : Transformation K)
    (hm : self.meshes_[self.currIndex_]? = some mesh)
    (htr : self.transformations_[self.currIndex_]? = some tr)
    (hne : mesh.vertices ≠ [])
    (hothers : ∀ i, i < self.numProcessed_ → i ≠ self.currIndex_ →
      ∃ m t, self.meshes_[i]? = some m ∧ self.transformations_[i]? = some t ∧
        m.vertices ≠ []) :
    ∃ out idx, calculate_correspondences angleDeg self a b c
      = .ok (out, { self with sampledPoints_ := idx }) := by
  have hmem : mesh ∈ self.meshes_ := List.getElem?_mem hm
  have hpts : tr.transformPoints (get_points mesh) ≠ [] := by
    simp [Transformation.transformPoints, get_points, hne]
  have hlen : mesh.n_vertices ≤ (tr.transformPoints (get_points mesh)).length := by
    simp [Transformation.transformPoints, get_points, Mesh.n_vertices]
  obtain ⟨idx, hidx⟩ := subsampleIndices_total self.averageVertexDistance_ hmem hlen hpts
  have hsub : subsample self (tr.transformPoints (get_points mesh))
      = .ok (idx, { self with sampledPoints_ := idx }) := subsample_ok_iff.2 ⟨hidx, rfl⟩
  obtain ⟨c1, hc1⟩ := scanLoop_total { self with sampledPoints_ := idx }
    (tr.transformPoints (get_points mesh)) (tr.transformVectors (get_normals mesh)) idx
    (by simp [Transformation.transformPoints, Transformation.transformVectors, get_points,
      get_normals])
    (subsampleIndices_lt hidx) (List.range self.numProcessed_) (Candidates.ofList [])
    (fun i hi hic => hothers i (List.mem_range.1 hi) hic)
  have hc1' := scanLoop_ofList _ _ _ _ _ _ _ hc1
  have hcol : collectCandidates self = .ok (c1, { self with sampledPoints_ := idx }) := by
    unfold collectCandidates
    rw [elemAt_of_getElem? hm, elemAt_of_getElem? htr]
    simp only
    rw [hsub]
    simp only
    have hc2 : scanLoop { self with sampledPoints_ := idx }
        (tr.transformPoints (get_points mesh)) (tr.transformVectors (get_normals mesh)) idx
        (List.range self.numProcessed_) ⟨[], [], [], [], []⟩ = .ok c1 := hc1
    rw [hc2]
  subst hc1'
  have hfinal : ∃ out, calculate_correspondences angleDeg self a b c
      = .ok (out, { self with sampledPoints_ := idx }) := by
    unfold calculate_correspondences
    simp only
    rw [hcol]
    simp only
    rw [prune_ofList]
    exact ⟨_, rfl⟩
  obtain ⟨out, ho⟩ := hfinal
  exact ⟨out, idx, ho⟩

end CollectLemmas

section SubsampleClaims

variable {K : Type} [LinearOrderedCommRing K]

set_option maxRecDepth 200000

/-- C3 (as stated, refuted): on 169 points of which point 164 coincides with
point 0, `subsample` with radius 5 returns the 42 indices `0, 4, ..., 164`, and
the points selected at positions 0 and 41 of that list are at distance 0, which
is below the radius. -/
theorem subsample_global_separation_fails :
    subsample (viewerOfPoints loopPts 1) loopPts
        = .ok (loopIndices, { viewerOfPoints loopPts 1 with sampledPoints_ := loopIndices }) ∧
      ¬ (∀ j k a b : Nat, j ≠ k → loopIndices[j]? = some a → loopIndices[k]? = some b →
          ∃ p q, loopPts[a]? = some p ∧ loopPts[b]? = some q ∧
            distGe p q (5 * (viewerOfPoints loopPts 1).averageVertexDistance_)) := by
  refine ⟨by decide, ?_⟩
  intro hall
  obtain ⟨p, q, hp, hq, hd⟩ := hall 0 41 0 164 (by decide) (by decide) (by decide)
  have hp0 : p = ⟨0, 0, 0⟩ := by
    have : loopPts[0]? = some (⟨0, 0, 0⟩ : Vector3d ℤ) := by decide
    rw [this] at hp
    cases hp
    rfl
  have hq0 : q = ⟨0, 0, 0⟩ := by
    have : loopPts[164]? = some (⟨0, 0, 0⟩ : Vector3d ℤ) := by decide
    rw [this] at hq
    cases hq
    rfl
  subst hp0 hq0
  revert hd
  decide

/-- C3 (amended): any two entries of the list returned by `subsample` that are
at most 40 positions apart select points at distance at least the radius
`5 * averageVertexDistance_`. -/
theorem subsample_separation_within_window (self self1 : RegistrationViewer K)
    (pts : List (Vector3d K)) (idx : List Nat)
    (h : subsample self pts = .ok (idx, self1))
    (j k a b : Nat) (hjk : j ≠ k) (h1 : j ≤ k + 40) (h2 : k ≤ j + 40)
    (ha : idx[j]? = some a) (hb : idx[k]? = some b) :
    ∃ p q, pts[a]? = some p ∧ pts[b]? = some q ∧
      distGe p q (5 * self.averageVertexDistance_) := by
  obtain ⟨hi, _⟩ := subsample_ok_iff.1 h
  obtain ⟨n, p0, _, _, hsw⟩ := subsampleIndices_sweep hi
  have hw := sweep_winSep hsw (winSep_singleton pts _ 0)
  rcases Nat.lt_or_gt_of_ne hjk with hlt | hgt
  · obtain ⟨p, q, hp, hq, hd⟩ := hw j k b a hlt h2 ha hb
    exact ⟨q, p, hq, hp, (distGe_comm p q _).1 hd⟩
  · exact hw k j a b hgt h1 hb ha

theorem subsample_separation_within_window_witness :
    subsample (viewerOfPoints (spacedPts 9) 1) (spacedPts 9)
        = .ok ([0, 4], { viewerOfPoints (spacedPts 9) 1 with sampledPoints_ := [0, 4] }) ∧
      ∃ p q, (spacedPts 9)[0]? = some p ∧ (spacedPts 9)[4]? = some q ∧
        distGe p q (5 * (viewerOfPoints (spacedPts 9) 1).averageVertexDistance_) :=
  ⟨by decide,
    subsample_separation_within_window (viewerOfPoints (spacedPts 9) 1)
      { viewerOfPoints (spacedPts 9) 1 with sampledPoints_ := [0, 4] } (spacedPts 9) [0, 4]
      (by decide) 0 1 0 4 (by decide) (by decide) (by decide) (by decide) (by decide)⟩

/-- C4: in the list returned by `subsample`, the point of the index at position
`k ≥ 1` is at distance at least the radius `5 * averageVertexDistance_` from the
point of every index at the positions `max(0, k - 40), ..., k - 1`. -/
theorem subsample_trailing_window_separated (self self1 : RegistrationViewer K)
    (pts : List (Vector3d K)) (idx : List Nat)
    (h : subsample self pts = .ok (idx, self1))
    (k j a b : Nat) (hk : 1 ≤ k) (hlo : k - 40 ≤ j) (hhi : j < k)
    (ha : idx[k]? = some a) (hb : idx[j]? = some b) :
    ∃ p q, pts[a]? = some p ∧ pts[b]? = some q ∧
      distGe p q (5 * self.averageVertexDistance_) := by
  obtain ⟨hi, _⟩ := subsample_ok_iff.1 h
  obtain ⟨n, p0, _, _, hsw⟩ := subsampleIndices_sweep hi
  exact sweep_winSep hsw (winSep_singleton pts _ 0) j k a b hhi (by omega) hb ha

theorem subsample_trailing_window_separated_witness :
    subsample (viewerOfPoints (spacedPts 13) 1) (spacedPts 13)
        = .ok ([0, 4, 8], { viewerOfPoints (spacedPts 13) 1 with sampledPoints_ := [0, 4, 8] }) ∧
      ∃ p q, (spacedPts 13)[8]? = some p ∧ (spacedPts 13)[0]? = some q ∧
        distGe p q (5 * (viewerOfPoints (spacedPts 13) 1).averageVertexDistance_) :=
  ⟨by decide,
    subsample_trailing_window_separated (viewerOfPoints (spacedPts 13) 1)
      { viewerOfPoints (spacedPts 13) 1 with sampledPoints_ := [0, 4, 8] } (spacedPts 13)
      [0, 4, 8] (by decide) 2 0 8 0 (by decide) (by decide) (by decide) (by decide) (by decide)⟩

/-- C5 (as stated, refuted): with 8 points, 10 apart, and radius 5 the smallest
vertex count is 8 and `subsample` returns `[0]`; index 4 is a multiple of 4,
below 8 and its point is far from the only kept point, yet it is not returned. -/
theorem subsample_stride_bound_fails :
    subsample (viewerOfPoints (spacedPts 8) 1) (spacedPts 8)
        = .ok ([0], { viewerOfPoints (spacedPts 8) 1 with sampledPoints_ := [0] }) ∧
      n_vertices_smallest (viewerOfPoints (spacedPts 8) 1).meshes_ = .ok 8 ∧
      ¬ (4 ∈ [0] ↔ 4 % 4 = 0 ∧ (4 : Int) < 8 ∧
          ∃ p, (spacedPts 8)[4]? = some p ∧
            farFromWindow (spacedPts 8) (5 * (viewerOfPoints (spacedPts 8) 1).averageVertexDistance_)
              (keptBefore [0] 4) p) := by
  refine ⟨by decide, by decide, ?_⟩
  intro hiff
  have hmem : 4 ∈ [0] := by
    refine hiff.2 ⟨by decide, by decide, ⟨40, 0, 0⟩, by decide, ?_⟩
    intro a ha
    have ha0 : a = 0 := by
      have : a ∈ [0] := ha
      simpa using this
    subst ha0
    exact ⟨⟨0, 0, 0⟩, by decide, by decide⟩
  exact absurd hmem (by decide)

/-- C5 (amended): with `n` the smallest vertex count of the loaded scans, an
index `i > 0` is in the list returned by `subsample` if and only if `i` is a
multiple of 4, `i < n - 4`, and the point at `i` is at distance at least the
radius from the point of each of the (at most 40) most recently kept indices
at the moment `i` is examined. -/
theorem subsample_mem_iff (self self1 : RegistrationViewer K)
    (pts : List (Vector3d K)) (idx : List Nat)
    (h : subsample self pts = .ok (idx, self1)) :
    ∃ n : Int, n_vertices_smallest self.meshes_ = .ok n ∧
      ∀ i : Nat, 0 < i →
        (i ∈ idx ↔ i % 4 = 0 ∧ (i : Int) < n - 4 ∧
          ∃ p, pts[i]? = some p ∧
            farFromWindow pts (5 * self.averageVertexDistance_) (keptBefore idx i) p) := by
  obtain ⟨hi, _⟩ := subsample_ok_iff.1 h
  obtain ⟨n, p0, hn, _, hsw⟩ := subsampleIndices_sweep hi
  refine ⟨n, hn, ?_⟩
  intro i hi0
  have := sweep_mem_iff hsw (by simp) i (Nat.zero_le _) hi0
  simpa using this

theorem subsample_mem_iff_witness :
    subsample (viewerOfPoints (spacedPts 9) 1) (spacedPts 9)
        = .ok ([0, 4], { viewerOfPoints (spacedPts 9) 1 with sampledPoints_ := [0, 4] }) ∧
      ∃ n : Int, n_vertices_smallest (viewerOfPoints (spacedPts 9) 1).meshes_ = .ok n ∧
        ∀ i : Nat, 0 < i →
          (i ∈ [0, 4] ↔ i % 4 = 0 ∧ (i : Int) < n - 4 ∧
            ∃ p, (spacedPts 9)[i]? = some p ∧
              farFromWindow (spacedPts 9)
                (5 * (viewerOfPoints (spacedPts 9) 1).averageVertexDistance_)
                (keptBefore [0, 4] i) p) :=
  ⟨by decide,
    subsample_mem_iff (viewerOfPoints (spacedPts 9) 1)
      { viewerOfPoints (spacedPts 9) 1 with sampledPoints_ := [0, 4] } (spacedPts 9) [0, 4]
      (by decide)⟩

/-- C6 (failing input): with radius 0 (average vertex distance 0) and five
points, `subsample` returns `[0, 0]`: the sweep examines index 0 again and
keeps it a second time, so the list is not strictly increasing. -/
theorem subsample_radius_zero_repeats_first :
    subsample (viewerOfPoints (spacedPts 5) 0) (spacedPts 5)
      = .ok ([0, 0], { viewerOfPoints (spacedPts 5) 0 with sampledPoints_ := [0, 0] }) := by
  decide

/-- With a positive radius the list returned by `subsample` starts with index
0 and is strictly increasing. -/
theorem subsample_increasing_of_pos (self self1 : RegistrationViewer K)
    (pts : List (Vector3d K)) (idx : List Nat)
    (h : subsample self pts = .ok (idx, self1)) (hr : 0 < 5 * self.averageVertexDistance_) :
    idx.Pairwise (fun a b => a < b) ∧ idx.head? = some 0 := by
  obtain ⟨hi, _⟩ := subsample_ok_iff.1 h
  obtain ⟨n, p0, _, hp0, hsw⟩ := subsampleIndices_sweep hi
  exact sweep_pairwise_of_pos hp0 hr hsw

end SubsampleClaims

section CorrespondenceClaims

variable {K : Type} [LinearOrderedCommRing K]

set_option maxRecDepth 200000

/-- C1 (failing input): the same tetrahedron is loaded as two processed scans.
The candidate collection finds the pair of the sampled vertex `(1, 1, 1)` with
itself, with equal normals and squared distance 0, which is within the
distance bound; the pruning removes it whatever the normal angle is, because
its recorded distance equals the tombstone value: `calculate_correspondences`
returns no pair. -/
theorem calculate_correspondences_drops_coincident_pair :
    collectCandidates twinViewer
        = .ok (Candidates.ofList [⟨⟨1, 1, 1⟩, ⟨1, 1, 1⟩, ⟨1, 1, 1⟩, ⟨1, 1, 1⟩, 0⟩],
            { twinViewer with sampledPoints_ := [0] }) ∧
      (0 : ℤ) ≤ distMedianThresh ∧
      ∀ angleDeg : Vector3d ℤ → Vector3d ℤ → Option ℤ,
        calculate_correspondences angleDeg twinViewer [] [] []
          = .ok (⟨[], [], []⟩, { twinViewer with sampledPoints_ := [0] }) := by
  have hcol : collectCandidates twinViewer
      = .ok (Candidates.ofList [⟨⟨1, 1, 1⟩, ⟨1, 1, 1⟩, ⟨1, 1, 1⟩, ⟨1, 1, 1⟩, 0⟩],
          { twinViewer with sampledPoints_ := [0] }) := by decide
  refine ⟨hcol, by decide, ?_⟩
  intro angleDeg
  unfold calculate_correspondences
  simp only
  rw [hcol]
  simp only
  rw [prune_ofList]
  simp [survives, tombstone, Candidates.ofList]

/-- A candidate that is within both bounds and whose recorded squared distance
is not 0 is kept by the pruning. -/
theorem prune_keeps_nonzero_in_bounds (angleDeg : Vector3d K → Vector3d K → Option K)
    (cs : List (Candidate K)) (c : Candidate K) (hc : c ∈ cs) (hd : c.dis2 ≤ 3)
    (v : K) (ha : angleDeg c.srcNormal c.targetNormal = some v) (hv : v ≤ 60)
    (h0 : c.dis2 ≠ 0) :
    ∃ out, prune angleDeg (Candidates.ofList cs) = .ok (Candidates.ofList out) ∧ c ∈ out :=
  ⟨_, prune_ofList angleDeg cs,
    List.mem_filter.2 ⟨hc, (survives_iff angleDeg c).2 ⟨hd, Or.inr ⟨v, ha, hv⟩, h0⟩⟩⟩

/-- C2 (failing input): two processed scans face each other, the sampled source
point `(0, 1, 0)` has the normal `(1, 13, 13)` and its closest target point
`(0, 0, 0)` the opposite normal `(-1, -13, -13)`, a true angle of 180 degrees.
The candidate has squared distance 1.  For these normals the angle value of
the source is NaN, the test `... > normalCompatabilityThresh` is false, the
candidate is not marked and `calculate_correspondences` returns the pair; this
holds for every angle function that is NaN at that pair. -/
theorem calculate_correspondences_keeps_nan_angle_pair :
    (⟨1, 13, 13⟩ : Vector3d ℤ) = Vector3d.neg ⟨-1, -13, -13⟩ ∧
      nanAngle ⟨1, 13, 13⟩ ⟨-1, -13, -13⟩ = none ∧
      collectCandidates facingViewer
        = .ok (Candidates.ofList [⟨⟨0, 1, 0⟩, ⟨1, 13, 13⟩, ⟨0, 0, 0⟩, ⟨-1, -13, -13⟩, 1⟩],
            { facingViewer with sampledPoints_ := [0] }) ∧
      calculate_correspondences nanAngle facingViewer [] [] []
        = .ok (⟨[⟨0, 1, 0⟩], [⟨0, 0, 0⟩], [⟨-1, -13, -13⟩]⟩,
            { facingViewer with sampledPoints_ := [0] }) ∧
      ∀ angleDeg : Vector3d ℤ → Vector3d ℤ → Option ℤ,
        angleDeg ⟨1, 13, 13⟩ ⟨-1, -13, -13⟩ = none →
        calculate_correspondences angleDeg facingViewer [] [] []
          = .ok (⟨[⟨0, 1, 0⟩], [⟨0, 0, 0⟩], [⟨-1, -13, -13⟩]⟩,
              { facingViewer with sampledPoints_ := [0] }) := by
  have hcol : collectCandidates facingViewer
      = .ok (Candidates.ofList [⟨⟨0, 1, 0⟩, ⟨1, 13, 13⟩, ⟨0, 0, 0⟩, ⟨-1, -13, -13⟩, 1⟩],
          { facingViewer with sampledPoints_ := [0] }) := by decide
  refine ⟨by decide, by decide, hcol, by decide, ?_⟩
  intro angleDeg hnan
  unfold calculate_correspondences
  simp only
  rw [hcol]
  simp only
  rw [prune_ofList]
  have hs : survives angleDeg
      (⟨⟨0, 1, 0⟩, ⟨1, 13, 13⟩, ⟨0, 0, 0⟩, ⟨-1, -13, -13⟩, 1⟩ : Candidate ℤ) = true := by
    rw [survives_iff]
    exact ⟨by decide, Or.inl hnan, by decide⟩
  simp [hs, Candidates.ofList]

/-- What the pruning guarantees for every pair returned by
`calculate_correspondences`: the squared distance between the returned source
point and target point is at most 3, and the angle value computed for the
normal of the source point (the transformed normal of the current scan at the
index of that source point) and the returned target normal is NaN or at most
60 degrees. -/
theorem calculate_correspondences_survivor_bounds (angleDeg : Vector3d K → Vector3d K → Option K)
    (self self1 : RegistrationViewer K) (a b c : List (Vector3d K)) (out : Correspondences K)
    (h : calculate_correspondences angleDeg self a b c = .ok (out, self1))
    (k : Nat) (s t n : Vector3d K) (hs : out.src[k]? = some s) (ht : out.target[k]? = some t)
    (hn : out.target_normals[k]? = some n) :
    length2 (s.sub t) ≤ 3 ∧
      ∃ (mesh : Mesh K) (tr : Transformation K) (index : Nat) (sn : Vector3d K),
        self.meshes_[self.currIndex_]? = some mesh ∧
        self.transformations_[self.currIndex_]? = some tr ∧
        (tr.transformPoints (get_points mesh))[index]? = some s ∧
        (tr.transformVectors (get_normals mesh))[index]? = some sn ∧
        (angleDeg sn n = none ∨ ∃ v, angleDeg sn n = some v ∧ v ≤ 60) := by
  obtain ⟨mesh, tr, idx, hm, htr, _, _, hout⟩ := calculate_correspondences_ok h
  subst hout
  obtain ⟨c1, hk1, rfl⟩ := getElem?_map_some _ _ _ _ hs
  obtain ⟨c2, hk2, rfl⟩ := getElem?_map_some _ _ _ _ ht
  obtain ⟨c3, hk3, rfl⟩ := getElem?_map_some _ _ _ _ hn
  rw [hk1] at hk2 hk3
  cases hk2
  cases hk3
  have hmem := List.getElem?_mem hk1
  rw [List.mem_filter] at hmem
  obtain ⟨hacc, hsurv⟩ := hmem
  obtain ⟨hd, hang, _⟩ := (survives_iff angleDeg c1).1 hsurv
  obtain ⟨i, tmesh, ttr, index, _, _, _, _, _, hmc⟩ := mem_accumulationOrder hacc
  obtain ⟨best, hsp, hsn, _, _, _, _, hdis⟩ := matchCandidate_some hmc
  refine ⟨?_, mesh, tr, index, c1.srcNormal, hm, htr, hsp, hsn, hang⟩
  rw [← hdis]
  exact hd

theorem calculate_correspondences_survivor_bounds_witness :
    calculate_correspondences flatAngle pairViewer [] [] []
        = .ok (⟨[⟨0, 1, 0⟩], [⟨0, 0, 0⟩], [⟨0, 0, 1⟩]⟩,
            { pairViewer with sampledPoints_ := [0] }) ∧
      (length2 ((⟨0, 1, 0⟩ : Vector3d ℤ).sub ⟨0, 0, 0⟩) ≤ 3 ∧
        ∃ (mesh : Mesh ℤ) (tr : Transformation ℤ) (index : Nat) (sn : Vector3d ℤ),
          pairViewer.meshes_[pairViewer.currIndex_]? = some mesh ∧
          pairViewer.transformations_[pairViewer.currIndex_]? = some tr ∧
          (tr.transformPoints (get_points mesh))[index]? = some ⟨0, 1, 0⟩ ∧
          (tr.transformVectors (get_normals mesh))[index]? = some sn ∧
          (flatAngle sn ⟨0, 0, 1⟩ = none ∨ ∃ v, flatAngle sn ⟨0, 0, 1⟩ = some v ∧ v ≤ 60)) :=
  ⟨by decide,
    calculate_correspondences_survivor_bounds flatAngle pairViewer
      { pairViewer with sampledPoints_ := [0] } [] [] []
      ⟨[⟨0, 1, 0⟩], [⟨0, 0, 0⟩], [⟨0, 0, 1⟩]⟩ (by decide) 0 ⟨0, 1, 0⟩ ⟨0, 0, 0⟩ ⟨0, 0, 1⟩
      (by decide) (by decide) (by decide)⟩

/-- C8: no pair returned by `calculate_correspondences` has a boundary point as
target: the target of every returned pair is the point at the closest-point
index `bestIndex` (for the returned source point) of a processed scan other
than the current one, and `targetBorders[bestIndex]` is false.  A sampled
source index whose closest target point is flagged as boundary adds nothing to
the candidate vectors for that target scan. -/
theorem calculate_correspondences_no_boundary_target
    (angleDeg : Vector3d K → Vector3d K → Option K)
    (self self1 : RegistrationViewer K) (a b c : List (Vector3d K)) (out : Correspondences K)
    (h : calculate_correspondences angleDeg self a b c = .ok (out, self1)) :
    (∀ (k : Nat) (s t : Vector3d K), out.src[k]? = some s → out.target[k]? = some t →
      ∃ (i : Nat) (mesh : Mesh K) (tr : Transformation K) (bestIndex : Nat),
        i < self.numProcessed_ ∧ i ≠ self.currIndex_ ∧ self.meshes_[i]? = some mesh ∧
        self.transformations_[i]? = some tr ∧
        getClosestPoint (tr.transformPoints (get_points mesh)) s = .ok bestIndex ∧
        (get_borders mesh)[bestIndex]? = some false ∧
        (tr.transformPoints (get_points mesh))[bestIndex]? = some t) ∧
    (∀ (srcPts srcNormals targetPts targetNormals : List (Vector3d K))
        (targetBorders : List Bool) (index : Nat) (rest : List Nat) (cands : Candidates K)
        (sp : Vector3d K) (bestIndex : Nat),
      srcPts[index]? = some sp → getClosestPoint targetPts sp = .ok bestIndex →
      targetBorders[bestIndex]? = some true →
      matchLoop srcPts srcNormals targetPts targetNormals targetBorders (index :: rest) cands
        = matchLoop srcPts srcNormals targetPts targetNormals targetBorders rest cands) := by
  refine ⟨?_, ?_⟩
  · intro k s t hs ht
    obtain ⟨mesh, tr, idx, _, _, _, _, hout⟩ := calculate_correspondences_ok h
    subst hout
    obtain ⟨c1, hk1, rfl⟩ := getElem?_map_some _ _ _ _ hs
    obtain ⟨c2, hk2, rfl⟩ := getElem?_map_some _ _ _ _ ht
    rw [hk1] at hk2
    cases hk2
    have hmem := List.getElem?_mem hk1
    rw [List.mem_filter] at hmem
    obtain ⟨i, tmesh, ttr, index, hlt, hne, hm, htr, _, hmc⟩ := mem_accumulationOrder hmem.1
    obtain ⟨best, _, _, hbest, hb, htp, _, _⟩ := matchCandidate_some hmc
    exact ⟨i, tmesh, ttr, best, hlt, hne, hm, htr, hbest, hb, htp⟩
  · intro sP sN tP tN tB index rest cands sp best hsp hbest hb
    exact matchLoop_boundary sP sN tP tN tB index rest cands sp best hsp hbest hb

theorem calculate_correspondences_no_boundary_target_witness :
    calculate_correspondences flatAngle pairViewer [] [] []
        = .ok (⟨[⟨0, 1, 0⟩], [⟨0, 0, 0⟩], [⟨0, 0, 1⟩]⟩,
            { pairViewer with sampledPoints_ := [0] }) ∧
      ∃ (i : Nat) (mesh : Mesh ℤ) (tr : Transformation ℤ) (bestIndex : Nat),
        i < pairViewer.numProcessed_ ∧ i ≠ pairViewer.currIndex_ ∧
        pairViewer.meshes_[i]? = some mesh ∧ pairViewer.transformations_[i]? = some tr ∧
        getClosestPoint (tr.transformPoints (get_points mesh)) ⟨0, 1, 0⟩ = .ok bestIndex ∧
        (get_borders mesh)[bestIndex]? = some false ∧
        (tr.transformPoints (get_points mesh))[bestIndex]? = some ⟨0, 0, 0⟩ :=
  ⟨by decide,
    (calculate_correspondences_no_boundary_target flatAngle pairViewer
      { pairViewer with sampledPoints_ := [0] } [] [] []
      ⟨[⟨0, 1, 0⟩], [⟨0, 0, 0⟩], [⟨0, 0, 1⟩]⟩ (by decide)).1 0 ⟨0, 1, 0⟩ ⟨0, 0, 0⟩
      (by decide) (by decide)⟩

/-- C9: the pairs returned by `calculate_correspondences` are in accumulation
order and index aligned.  The candidate vectors built by the loops hold the
list `accumulationOrder` (target scans `i < numProcessed_`, `i ≠ currIndex_`,
by increasing `i`; within a scan the sampled source indices in the order
`subsample` returned them), and there is a sublist `kept` of that list, in the
same order, such that `_src`, `_target` and `_target_normals` are the source
points, target points and target normals of `kept`, position by position; the
three vectors have the same length. -/
theorem calculate_correspondences_accumulation_order
    (angleDeg : Vector3d K → Vector3d K → Option K)
    (self self1 : RegistrationViewer K) (a b c : List (Vector3d K)) (out : Correspondences K)
    (h : calculate_correspondences angleDeg self a b c = .ok (out, self1)) :
    ∃ (mesh : Mesh K) (tr : Transformation K) (idx : List Nat) (kept : List (Candidate K)),
      self.meshes_[self.currIndex_]? = some mesh ∧
      self.transformations_[self.currIndex_]? = some tr ∧
      subsample self (tr.transformPoints (get_points mesh)) = .ok (idx, self1) ∧
      collectCandidates self = .ok (Candidates.ofList
        (accumulationOrder self (tr.transformPoints (get_points mesh))
          (tr.transformVectors (get_normals mesh)) idx), self1) ∧
      List.Sublist kept (accumulationOrder self (tr.transformPoints (get_points mesh))
        (tr.transformVectors (get_normals mesh)) idx) ∧
      out.src = kept.map (fun c => c.srcPt) ∧
      out.target = kept.map (fun c => c.targetPt) ∧
      out.target_normals = kept.map (fun c => c.targetNormal) ∧
      out.src.length = out.target.length ∧
      out.target.length = out.target_normals.length := by
  obtain ⟨mesh, tr, idx, hm, htr, hsub, hcol, hout⟩ := calculate_correspondences_ok h
  subst hout
  refine ⟨mesh, tr, idx, _, hm, htr, hsub, hcol, List.filter_sublist _, rfl, rfl, rfl, ?_, ?_⟩
  · simp
  · simp

theorem calculate_correspondences_accumulation_order_witness :
    calculate_correspondences flatAngle pairViewer [] [] []
        = .ok (⟨[⟨0, 1, 0⟩], [⟨0, 0, 0⟩], [⟨0, 0, 1⟩]⟩,
            { pairViewer with sampledPoints_ := [0] }) ∧
      ∃ (mesh : Mesh ℤ) (tr : Transformation ℤ) (idx : List Nat) (kept : List (Candidate ℤ)),
        pairViewer.meshes_[pairViewer.currIndex_]? = some mesh ∧
        pairViewer.transformations_[pairViewer.currIndex_]? = some tr ∧
        subsample pairViewer (tr.transformPoints (get_points mesh))
          = .ok (idx, { pairViewer with sampledPoints_ := [0] }) ∧
        collectCandidates pairViewer = .ok (Candidates.ofList
          (accumulationOrder pairViewer (tr.transformPoints (get_points mesh))
            (tr.transformVectors (get_normals mesh)) idx),
            { pairViewer with sampledPoints_ := [0] }) ∧
        List.Sublist kept (accumulationOrder pairViewer (tr.transformPoints (get_points mesh))
          (tr.transformVectors (get_normals mesh)) idx) ∧
        [(⟨0, 1, 0⟩ : Vector3d ℤ)] = kept.map (fun c => c.srcPt) ∧
        [(⟨0, 0, 0⟩ : Vector3d ℤ)] = kept.map (fun c => c.targetPt) ∧
        [(⟨0, 0, 1⟩ : Vector3d ℤ)] = kept.map (fun c => c.targetNormal) ∧
        [(⟨0, 1, 0⟩ : Vector3d ℤ)].length = [(⟨0, 0, 0⟩ : Vector3d ℤ)].length ∧
        [(⟨0, 0, 0⟩ : Vector3d ℤ)].length = [(⟨0, 0, 1⟩ : Vector3d ℤ)].length :=
  ⟨by decide,
    calculate_correspondences_accumulation_order flatAngle pairViewer
      { pairViewer with sampledPoints_ := [0] } [] [] []
      ⟨[⟨0, 1, 0⟩], [⟨0, 0, 0⟩], [⟨0, 0, 1⟩]⟩ (by decide)⟩

/-- C10: when no scan has been processed besides the current one (every
`i < numProcessed_` equals `currIndex_`) and the current scan has at least one
vertex, `calculate_correspondences` returns, and `_src`, `_target` and
`_target_normals` are empty whatever they held before the call. -/
theorem calculate_correspondences_no_other_scan (angleDeg : Vector3d K → Vector3d K → Option K)
    (self : RegistrationViewer K) (a b c : List (Vector3d K))
    (mesh : Mesh K) (tr : Transformation K)
    (hm : self.meshes_[self.currIndex_]? = some mesh)
    (htr : self.transformations_[self.currIndex_]? = some tr)
    (hne : mesh.vertices ≠ [])
    (hno : ∀ i, i < self.numProcessed_ → i = self.currIndex_) :
    ∃ idx, calculate_correspondences angleDeg self a b c
      = .ok (⟨[], [], []⟩, { self with sampledPoints_ := idx }) := by
  have hmem : mesh ∈ self.meshes_ := List.getElem?_mem hm
  have hpts : tr.transformPoints (get_points mesh) ≠ [] := by
    simp [Transformation.transformPoints, get_points, hne]
  have hlen : mesh.n_vertices ≤ (tr.transformPoints (get_points mesh)).length := by
    simp [Transformation.transformPoints, get_points, Mesh.n_vertices]
  obtain ⟨idx, hidx⟩ := subsampleIndices_total self.averageVertexDistance_ hmem hlen hpts
  have hsub : subsample self (tr.transformPoints (get_points mesh))
      = .ok (idx, { self with sampledPoints_ := idx }) := subsample_ok_iff.2 ⟨hidx, rfl⟩
  have hscan := scanLoop_skip { self with sampledPoints_ := idx }
    (tr.transformPoints (get_points mesh)) (tr.transformVectors (get_normals mesh)) idx
    ⟨[], [], [], [], []⟩ (List.range self.numProcessed_)
    (fun i hi => hno i (List.mem_range.1 hi))
  have hcol : collectCandidates self
      = .ok (Candidates.ofList [], { self with sampledPoints_ := idx }) := by
    unfold collectCandidates
    rw [elemAt_of_getElem? hm, elemAt_of_getElem? htr]
    simp only
    rw [hsub]
    simp only
    rw [hscan]
    rfl
  refine ⟨idx, ?_⟩
  unfold calculate_correspondences
  simp only
  rw [hcol]
  simp only
  rw [prune_ofList]
  rfl

theorem calculate_correspondences_no_other_scan_witness :
    (∀ i, i < (viewerOfPoints (spacedPts 9) 1).numProcessed_ →
        i = (viewerOfPoints (spacedPts 9) 1).currIndex_) ∧
      ∃ idx, calculate_correspondences flatAngle (viewerOfPoints (spacedPts 9) 1)
          [⟨1, 1, 1⟩] [⟨2, 2, 2⟩] [⟨0, 0, 1⟩]
        = .ok (⟨[], [], []⟩, { viewerOfPoints (spacedPts 9) 1 with sampledPoints_ := idx }) :=
  ⟨by decide,
    calculate_correspondences_no_other_scan flatAngle (viewerOfPoints (spacedPts 9) 1)
      [⟨1, 1, 1⟩] [⟨2, 2, 2⟩] [⟨0, 0, 1⟩] (meshOfPoints (spacedPts 9)) Transformation.identity
      (by decide) (by decide) (by decide) (by decide)⟩

end CorrespondenceClaims

section LoadingClaims

variable {K : Type} [LinearOrderedCommRing K]

theorem open_meshes_loop_average (sqrt : K → K) (divide : K → K → K) (b : Bool)
    (self : RegistrationViewer K) (files : List (Option (Mesh K))) :
    (files.foldl (open_meshes_step sqrt divide) (b, self)).2.averageVertexDistance_
      = match (readMeshes files).getLast? with
        | some m => get_average_vertex_distance sqrt divide m
        | none => self.averageVertexDistance_ := by
  induction files using List.reverseRecOn with
  | nil => rfl
  | append_singleton l file ih =>
    rw [List.foldl_append, List.foldl_cons, List.foldl_nil]
    cases file with
    | none =>
      have hr : readMeshes (l ++ [none]) = readMeshes l := by
        simp [readMeshes]
      rw [hr, ← ih]
      rfl
    | some m =>
      have hr : readMeshes (l ++ [some m]) = readMeshes l ++ [m] := by
        simp [readMeshes]
      rw [hr, List.getLast?_append]
      rfl

/-- C7 (as stated, refuted): three meshes with edge lengths 2, 4 and 6 are
loaded.  After `open_meshes` the current scan is the second one, with average
edge length 4, while `averageVertexDistance_` is 6, the value of the mesh
loaded last: the radius `5 * averageVertexDistance_` is 30, not 20. -/
theorem open_meshes_radius_not_of_current_scan :
    (open_meshes intSqrt (fun x y => x / y) freshViewer
        [some (edgeMesh 1), some (edgeMesh 2), some (edgeMesh 3)]).2.currIndex_ = 1 ∧
      (open_meshes intSqrt (fun x y => x / y) freshViewer
        [some (edgeMesh 1), some (edgeMesh 2), some (edgeMesh 3)]).2.meshes_[1]?
          = some (edgeMesh 2) ∧
      ¬ (5 * (open_meshes intSqrt (fun x y => x / y) freshViewer
          [some (edgeMesh 1), some (edgeMesh 2), some (edgeMesh 3)]).2.averageVertexDistance_
        = 5 * get_average_vertex_distance intSqrt (fun x y => x / y) (edgeMesh 2)) ∧
      5 * (open_meshes intSqrt (fun x y => x / y) freshViewer
          [some (edgeMesh 1), some (edgeMesh 2), some (edgeMesh 3)]).2.averageVertexDistance_
        = 30 ∧
      5 * get_average_vertex_distance intSqrt (fun x y => x / y) (edgeMesh 2) = 20 := by
  decide

/-- C7 (amended): after `open_meshes` the member `averageVertexDistance_`, of
which `subsample` takes 5 times as radius, is the average edge length of the
mesh read last among the files that could be read (the previous value when no
file could be read), whichever scan is current; the key `'n'`, which changes
the current scan, leaves it and the meshes unchanged. -/
theorem open_meshes_average_vertex_distance (sqrt : K → K) (divide : K → K → K)
    (self : RegistrationViewer K) (files : List (Option (Mesh K))) :
    (5 * (open_meshes sqrt divide self files).2.averageVertexDistance_
        = 5 * (match (readMeshes files).getLast? with
          | some m => get_average_vertex_distance sqrt divide m
          | none => self.averageVertexDistance_)) ∧
      ∀ v v1 : RegistrationViewer K, keyboard_n v = .ok v1 →
        v1.averageVertexDistance_ = v.averageVertexDistance_ ∧ v1.meshes_ = v.meshes_ := by
  refine ⟨?_, ?_⟩
  · have h := open_meshes_loop_average sqrt divide true self files
    unfold open_meshes
    simp only
    rw [h]
  · intro v v1 hk
    unfold keyboard_n at hk
    split at hk
    · cases hk
    · cases hk
      exact ⟨rfl, rfl⟩

end LoadingClaims

section TableClaims

theorem perm_snoc_set {α : Type} (b : α) :
    ∀ (l : List α) (i : Nat) (a : α), l[i]? = some a → List.Perm (l ++ [b]) (a :: l.set i b) := by
  intro l
  induction l with
  | nil =>
    intro i a h
    simp at h
  | cons x l ih =>
    intro i a h
    cases i with
    | zero =>
      simp only [List.getElem?_cons_zero, Option.some.injEq] at h
      subst h
      simp only [List.cons_append, List.set_cons_zero]
      exact (List.perm_append_singleton b l).cons x
    | succ j =>
      simp only [List.getElem?_cons_succ] at h
      simp only [List.cons_append, List.set_cons_succ]
      exact ((ih j a h).cons x).trans (List.Perm.swap a x _)

/-- C15: `remove` is a swap-remove on the live prefix.  For a table with
`count_ ≤ data_.size()` and `index < size()`, `remove(index)` returns a table
whose size is one smaller, whose position `index` holds the element that was
last, whose other positions below the new size are unchanged, and whose live
elements are, up to order, the old ones without the removed element (the old
live list is a permutation of the removed element followed by the new live
list).  For `index ≥ size()` the table is unchanged.  The bound
`count_ ≤ data_.size()` holds after the constructor and is preserved by
`push_back` and `remove`. -/
theorem randomaccesstable_remove_swap {Elem : Type} [Inhabited Elem]
    (t : randomaccesstable Elem) (index : Nat) (hinv : t.count_ ≤ t.data_.length) :
    (index < t.size →
      ∃ (t1 : randomaccesstable Elem) (removed last : Elem),
        t.remove index = .ok t1 ∧ t.data_[index]? = some removed ∧
        t.data_[t.size - 1]? = some last ∧ t1.size + 1 = t.size ∧
        t1.data_[index]? = some last ∧
        (∀ j, j < t1.size → j ≠ index → t1.data_[j]? = t.data_[j]?) ∧
        List.Perm t.live (removed :: t1.live) ∧
        t1.count_ ≤ t1.data_.length) ∧
    (t.size ≤ index → t.remove index = .ok t) ∧
    (∀ initial_size : Nat,
      (randomaccesstable.new initial_size : randomaccesstable Elem).count_
        ≤ (randomaccesstable.new initial_size : randomaccesstable Elem).data_.length) ∧
    (∀ elem : Elem, (t.push_back elem).count_ ≤ (t.push_back elem).data_.length) := by
  refine ⟨?_, ?_, ?_, ?_⟩
  · intro hi
    unfold randomaccesstable.size at hi
    have hi1 : index < t.data_.length := by omega
    have hc1 : t.count_ - 1 < t.data_.length := by omega
    have ha : t.data_[index]? = some t.data_[index] := List.getElem?_eq_getElem hi1
    have hb : t.data_[t.count_ - 1]? = some t.data_[t.count_ - 1] :=
      List.getElem?_eq_getElem hc1
    have hrem : t.remove index
        = .ok ⟨(t.data_.set index t.data_[t.count_ - 1]).set (t.count_ - 1) t.data_[index],
            t.count_ - 1⟩ := by
      unfold randomaccesstable.remove
      rw [if_pos hi, ha, hb]
    refine ⟨_, t.data_[index], t.data_[t.count_ - 1], hrem, ha, hb, ?_, ?_, ?_, ?_, ?_⟩
    · simp only [randomaccesstable.size]
      omega
    · by_cases hlast : index = t.count_ - 1
      · subst hlast
        rw [List.getElem?_set_self (by simpa using hc1)]
      · rw [List.getElem?_set_ne (Ne.symm hlast), List.getElem?_set_self hi1]
    · intro j hj hne
      simp only [randomaccesstable.size] at hj
      rw [List.getElem?_set_ne (by omega), List.getElem?_set_ne (Ne.symm hne)]
    · simp only [randomaccesstable.live]
      have hlive : t.data_.take t.count_
          = t.data_.take (t.count_ - 1) ++ [t.data_[t.count_ - 1]] := by
        have h1 := List.take_concat_get t.data_ (t.count_ - 1) hc1
        have h2 : t.count_ - 1 + 1 = t.count_ := by omega
        rw [h2] at h1
        rw [← h1, List.concat_eq_append]
      have hnew : ((t.data_.set index t.data_[t.count_ - 1]).set (t.count_ - 1)
          t.data_[index]).take (t.count_ - 1)
            = (t.data_.take (t.count_ - 1)).set index t.data_[t.count_ - 1] := by
        rw [List.set_take, List.set_take]
        rw [List.set_eq_of_length_le (by simp only [List.length_take, List.length_set]; omega)]
      rw [hlive, hnew]
      by_cases hlast : index = t.count_ - 1
      · have hset : (t.data_.take (t.count_ - 1)).set index t.data_[t.count_ - 1]
            = t.data_.take (t.count_ - 1) := by
          rw [List.set_eq_of_length_le (by simp only [List.length_take, List.length_set]; omega)]
        rw [hset]
        have hab : t.data_[t.count_ - 1] = t.data_[index] := by
          subst hlast
          rfl
        rw [hab]
        exact List.perm_append_singleton _ _
      · refine perm_snoc_set _ _ index _ ?_
        rw [List.getElem?_take_of_lt (by omega)]
        exact ha
    · simp only [List.length_set]
      omega
  · intro hi
    unfold randomaccesstable.size at hi
    unfold randomaccesstable.remove
    rw [if_neg (by omega)]
  · intro n
    simp [randomaccesstable.new]
  · intro elem
    unfold randomaccesstable.push_back
    split
    · simp only [List.length_set]
      omega
    · simp only [List.length_append, List.length_singleton]
      omega

theorem randomaccesstable_remove_swap_witness :
    smallTable.count_ ≤ smallTable.data_.length ∧
      smallTable.remove 0 = .ok ⟨[7, 6, 5, 0], 2⟩ ∧
      ((0 < smallTable.size →
        ∃ (t1 : randomaccesstable Nat) (removed last : Nat),
          smallTable.remove 0 = .ok t1 ∧ smallTable.data_[0]? = some removed ∧
          smallTable.data_[smallTable.size - 1]? = some last ∧ t1.size + 1 = smallTable.size ∧
          t1.data_[0]? = some last ∧
          (∀ j, j < t1.size → j ≠ 0 → t1.data_[j]? = smallTable.data_[j]?) ∧
          List.Perm smallTable.live (removed :: t1.live) ∧
          t1.count_ ≤ t1.data_.length) ∧
      (smallTable.size ≤ 0 → smallTable.remove 0 = .ok smallTable) ∧
      (∀ initial_size : Nat,
        (randomaccesstable.new initial_size : randomaccesstable Nat).count_
          ≤ (randomaccesstable.new initial_size : randomaccesstable Nat).data_.length) ∧
      (∀ elem : Nat,
        (smallTable.push_back elem).count_ ≤ (smallTable.push_back elem).data_.length)) :=
  ⟨by decide, by decide, randomaccesstable_remove_swap smallTable 0 (by decide)⟩

end TableClaims

section CursorClaims

variable {K : Type} [LinearOrderedCommRing K]

set_option maxRecDepth 200000

theorem open_meshes_loop_lengths (sqrt : K → K) (divide : K → K → K)
    (files : List (Option (Mesh K))) :
    ∀ (st : Bool × RegistrationViewer K),
      (files.foldl (open_meshes_step sqrt divide) st).2.meshes_.length
          = st.2.meshes_.length + files.length ∧
        (files.foldl (open_meshes_step sqrt divide) st).2.transformations_.length
          = st.2.transformations_.length + files.length := by
  induction files with
  | nil =>
    intro st
    simp
  | cons file files ih =>
    intro st
    rw [List.foldl_cons]
    obtain ⟨h1, h2⟩ := ih (open_meshes_step sqrt divide st file)
    have hs : (open_meshes_step sqrt divide st file).2.meshes_.length
          = st.2.meshes_.length + 1 ∧
        (open_meshes_step sqrt divide st file).2.transformations_.length
          = st.2.transformations_.length + 1 := by
      cases file <;> simp [open_meshes_step]
    rw [h1, h2, hs.1, hs.2, List.length_cons]
    omega

/-- After `open_meshes` with at least one file name the cursor invariant holds. -/
theorem open_meshes_cursorInv (sqrt : K → K) (divide : K → K → K)
    (self : RegistrationViewer K) (files : List (Option (Mesh K))) (hfiles : files ≠ [])
    (hlen : self.transformations_.length = self.meshes_.length) :
    CursorInv (open_meshes sqrt divide self files).2 := by
  obtain ⟨h1, h2⟩ := open_meshes_loop_lengths sqrt divide files (true, self)
  have hpos : 0 < files.length := List.length_pos.2 hfiles
  unfold CursorInv open_meshes
  simp only
  refine ⟨?_, ?_, ?_⟩
  · omega
  · omega
  · rw [h1, h2, hlen]

/-- The key `'n'` can be pressed in a state with the cursor invariant, keeps
the invariant and does not decrease `numProcessed_`. -/
theorem keyboard_n_cursorInv {K : Type} (self : RegistrationViewer K) (h : CursorInv self) :
    ∃ self1, keyboard_n self = .ok self1 ∧ CursorInv self1 ∧
      self.numProcessed_ ≤ self1.numProcessed_ := by
  obtain ⟨h1, h2, h3⟩ := h
  have hpos : self.meshes_.length ≠ 0 := by omega
  unfold keyboard_n
  rw [if_neg hpos]
  refine ⟨_, rfl, ⟨?_, ?_, h3⟩, ?_⟩
  · simp only
    by_cases hc : self.currIndex_ + 1 < self.meshes_.length
    · rw [Nat.mod_eq_of_lt hc]
      omega
    · have he : self.currIndex_ + 1 = self.meshes_.length := by omega
      rw [he, Nat.mod_self]
      omega
  · simp only
    omega
  · simp only
    omega

theorem keyboard_n_times_cursorInv {K : Type} :
    ∀ (k : Nat) (self : RegistrationViewer K), CursorInv self →
      ∃ v, keyboard_n_times k self = .ok v ∧ CursorInv v := by
  intro k
  induction k with
  | zero =>
    intro self h
    exact ⟨self, rfl, h⟩
  | succ k ih =>
    intro self h
    obtain ⟨self1, hk, hinv, _⟩ := keyboard_n_cursorInv self h
    obtain ⟨v, hv, hvinv⟩ := ih self1 hinv
    refine ⟨v, ?_, hvinv⟩
    unfold keyboard_n_times
    rw [hk]
    exact hv

/-- C13: after `open_meshes` with at least one file name, started from a state
where every mesh has its transformation, and after any number `k` of `'n'` key
presses, `0 ≤ currIndex_ < numProcessed_ ≤ meshes_.size()` holds and
`currIndex_` is a valid index into `transformations_`; a further `'n'` press
succeeds and does not decrease `numProcessed_`. -/
theorem scan_cursor_invariant (sqrt : K → K) (divide : K → K → K)
    (self : RegistrationViewer K) (files : List (Option (Mesh K))) (hfiles : files ≠ [])
    (hlen : self.transformations_.length = self.meshes_.length) (k : Nat) :
    ∃ v v1, keyboard_n_times k (open_meshes sqrt divide self files).2 = .ok v ∧
      keyboard_n v = .ok v1 ∧
      0 ≤ v.currIndex_ ∧ v.currIndex_ < v.numProcessed_ ∧
      v.numProcessed_ ≤ v.meshes_.length ∧ v.currIndex_ < v.transformations_.length ∧
      v.numProcessed_ ≤ v1.numProcessed_ := by
  have h0 := open_meshes_cursorInv sqrt divide self files hfiles hlen
  obtain ⟨v, hv, hinv⟩ := keyboard_n_times_cursorInv k _ h0
  obtain ⟨v1, hv1, _, hmono⟩ := keyboard_n_cursorInv v hinv
  obtain ⟨h1, h2, h3⟩ := hinv
  exact ⟨v, v1, hv, hv1, Nat.zero_le _, h1, h2, by omega, hmono⟩

theorem scan_cursor_invariant_witness :
    ([some tetraMesh, none, some (edgeMesh 1)] : List (Option (Mesh ℤ))) ≠ [] ∧
      freshViewer.transformations_.length = freshViewer.meshes_.length ∧
      ∃ v v1, keyboard_n_times 4 (open_meshes intSqrt (fun x y => x / y) freshViewer
          [some tetraMesh, none, some (edgeMesh 1)]).2 = .ok v ∧
        keyboard_n v = .ok v1 ∧
        0 ≤ v.currIndex_ ∧ v.currIndex_ < v.numProcessed_ ∧
        v.numProcessed_ ≤ v.meshes_.length ∧ v.currIndex_ < v.transformations_.length ∧
        v.numProcessed_ ≤ v1.numProcessed_ :=
  ⟨by decide, by decide,
    scan_cursor_invariant intSqrt (fun x y => x / y) freshViewer
      [some tetraMesh, none, some (edgeMesh 1)] (by decide) (by decide) 4⟩

end CursorClaims

section SafetyClaims

variable {K : Type} [LinearOrderedCommRing K]

set_option maxRecDepth 200000

/-- C14: index safety of `subsample`.  When the point sequence is non-empty
and has at least as many points as the smallest loaded scan, the call returns
(no point access leaves the sequence), every returned index is a position of
the sequence, and these indices are what is stored in `sampledPoints_`.  The
size condition holds for the transformed points of every loaded scan, and
after `calculate_correspondences` the stored `sampledPoints_` are positions of
the current scan's points. -/
theorem subsample_index_safety (self : RegistrationViewer K) (pts : List (Vector3d K))
    (n : Int) (hne : pts ≠ []) (hn : n_vertices_smallest self.meshes_ = .ok n)
    (hle : n ≤ (pts.length : Int)) :
    (∃ idx self1, subsample self pts = .ok (idx, self1) ∧ self1.sampledPoints_ = idx ∧
      ∀ a ∈ self1.sampledPoints_, 0 ≤ a ∧ a < pts.length) ∧
    (∀ mesh ∈ self.meshes_, ∀ tr : Transformation K,
      n ≤ ((tr.transformPoints (get_points mesh)).length : Int)) ∧
    (∀ (angleDeg : Vector3d K → Vector3d K → Option K) (a b c : List (Vector3d K))
        (out : Correspondences K) (self1 : RegistrationViewer K) (mesh : Mesh K),
      calculate_correspondences angleDeg self a b c = .ok (out, self1) →
      self.meshes_[self.currIndex_]? = some mesh →
      ∀ i ∈ self1.sampledPoints_, i < (get_points mesh).length) := by
  refine ⟨?_, ?_, ?_⟩
  · have hidx : ∃ idx, subsampleIndices self.meshes_ self.averageVertexDistance_ pts
        = .ok idx := by
      unfold subsampleIndices
      simp only
      cases pts with
      | nil => exact absurd rfl hne
      | cons p0 ps =>
        simp only [List.length_cons, Nat.zero_lt_succ, List.getElem?_eq_getElem,
          List.getElem_cons_zero]
        rw [hn]
        simp only
        refine subsampleLoop_total (p0 :: ps) _ n hle _ _ _ _ ?_
        have := Int.self_le_toNat n
        omega
    obtain ⟨idx, hidx⟩ := hidx
    refine ⟨idx, { self with sampledPoints_ := idx }, subsample_ok_iff.2 ⟨hidx, rfl⟩, rfl, ?_⟩
    intro a ha
    exact ⟨Nat.zero_le _, subsampleIndices_lt hidx a ha⟩
  · intro mesh hmesh tr
    obtain ⟨n1, hn1, hle1⟩ := n_vertices_smallest_le hmesh
    rw [hn] at hn1
    cases hn1
    simpa [Transformation.transformPoints, get_points, Mesh.n_vertices] using hle1
  · intro angleDeg a b c out self1 mesh hcalc hmesh i hi
    obtain ⟨mesh1, tr, idx, hm, _, hsub, _, _⟩ := calculate_correspondences_ok hcalc
    rw [hmesh] at hm
    cases hm
    obtain ⟨hidx, hself⟩ := subsample_ok_iff.1 hsub
    subst hself
    have := subsampleIndices_lt hidx i hi
    simpa [Transformation.transformPoints] using this

theorem subsample_index_safety_witness :
    spacedPts 13 ≠ [] ∧
      n_vertices_smallest (viewerOfPoints (spacedPts 13) 1).meshes_ = .ok 13 ∧
      subsample (viewerOfPoints (spacedPts 13) 1) (spacedPts 13)
        = .ok ([0, 4, 8], { viewerOfPoints (spacedPts 13) 1 with sampledPoints_ := [0, 4, 8] }) ∧
      ∃ idx self1, subsample (viewerOfPoints (spacedPts 13) 1) (spacedPts 13)
          = .ok (idx, self1) ∧ self1.sampledPoints_ = idx ∧
        ∀ a ∈ self1.sampledPoints_, 0 ≤ a ∧ a < (spacedPts 13).length :=
  ⟨by decide, by decide, by decide,
    (subsample_index_safety (viewerOfPoints (spacedPts 13) 1) (spacedPts 13) 13
      (by decide) (by decide) (by decide)).1⟩

end SafetyClaims

section RegistrationClaims

variable {K : Type} [LinearOrderedCommRing K]

set_option maxRecDepth 200000

/-- The product of two transformations acts as the right factor followed by
the left factor. -/
theorem transformPoint_mul (a b : Transformation K) (p : Vector3d K) :
    (a.mul b).transformPoint p = a.transformPoint (b.transformPoint p) := by
  simp only [Transformation.mul, Transformation.transformPoint, Transformation.transformVector,
    Transformation.col0, Transformation.col1, Transformation.col2, dot, Vector3d.add,
    Vector3d.mk.injEq]
  refine ⟨?_, ?_, ?_⟩ <;> ring

/-- The method `perform_registration` returns whenever the current scan and
every other processed scan is a loaded scan with at least one vertex and a
transformation. -/
theorem perform_registration_total (angleDeg : Vector3d K → Vector3d K → Option K)
    (register_point2point : List (Vector3d K) → List (Vector3d K) → Transformation K)
    (register_point2surface :
      List (Vector3d K) → List (Vector3d K) → List (Vector3d K) → Transformation K)
    (self : RegistrationViewer K) (_tangential_motion : Bool)
    (mesh : Mesh K) (tr : Transformation K)
    (hm : self.meshes_[self.currIndex_]? = some mesh)
    (htr : self.transformations_[self.currIndex_]? = some tr)
    (hne : mesh.vertices ≠ [])
    (hothers : ∀ i, i < self.numProcessed_ → i ≠ self.currIndex_ →
      ∃ m t, self.meshes_[i]? = some m ∧ self.transformations_[i]? = some t ∧
        m.vertices ≠ []) :
    ∃ self2, perform_registration angleDeg register_point2point register_point2surface self
      _tangential_motion = .ok self2 := by
  obtain ⟨out, idx, hc⟩ :=
    calculate_correspondences_total angleDeg self [] [] [] mesh tr hm htr hne hothers
  have hel : elemAt ({ self with sampledPoints_ := idx } : RegistrationViewer K).transformations_
      ({ self with sampledPoints_ := idx } : RegistrationViewer K).currIndex_ = .ok tr :=
    elemAt_of_getElem? htr
  unfold perform_registration
  rw [hc]
  simp only
  rw [hel]
  exact ⟨_, rfl⟩

/-- C12: `perform_registration` changes only the accumulated transformation of
the current scan.  After a call that returns, in either mode,
`transformations_[currIndex_]` is `opt_tr * old`, with `opt_tr` the result of
the solver of that mode on the correspondences and `old` the previous entry;
the product acts as `old` followed by `opt_tr` (composition from the left, the
side on which the `MOVE` branches of `motion` multiply their increment); every
other entry of `transformations_`, the meshes, `currIndex_` and
`numProcessed_` are unchanged. -/
theorem perform_registration_frame (angleDeg : Vector3d K → Vector3d K → Option K)
    (register_point2point : List (Vector3d K) → List (Vector3d K) → Transformation K)
    (register_point2surface :
      List (Vector3d K) → List (Vector3d K) → List (Vector3d K) → Transformation K)
    (self self2 : RegistrationViewer K) (_tangential_motion : Bool)
    (h : perform_registration angleDeg register_point2point register_point2surface self
      _tangential_motion = .ok self2) :
    ∃ (out : Correspondences K) (self1 : RegistrationViewer K) (opt_tr old : Transformation K),
      calculate_correspondences angleDeg self [] [] [] = .ok (out, self1) ∧
      opt_tr = (if _tangential_motion then
          register_point2surface out.src out.target out.target_normals
        else register_point2point out.src out.target) ∧
      self.transformations_[self.currIndex_]? = some old ∧
      self2.transformations_[self.currIndex_]? = some (opt_tr.mul old) ∧
      (∀ p : Vector3d K,
        (opt_tr.mul old).transformPoint p = opt_tr.transformPoint (old.transformPoint p)) ∧
      (∀ (mv_tr tr : Transformation K) (v : RegistrationViewer K),
        motion_move self mv_tr tr = .ok v →
        v.transformations_[self.currIndex_]?
          = some (((mv_tr.inverse.mul tr).mul mv_tr).mul old)) ∧
      (∀ k : Nat, k ≠ self.currIndex_ →
        self2.transformations_[k]? = self.transformations_[k]?) ∧
      self2.transformations_.length = self.transformations_.length ∧
      self2.meshes_ = self.meshes_ ∧ self2.currIndex_ = self.currIndex_ ∧
      self2.numProcessed_ = self.numProcessed_ := by
  unfold perform_registration at h
  split at h
  · cases h
  · rename_i out self1 hcalc
    simp only at h
    split at h
    · cases h
    · rename_i old hold
      rw [elemAt_eq_ok_iff] at hold
      obtain ⟨mesh, tr, idx, _, _, hsub, _, _⟩ := calculate_correspondences_ok hcalc
      have hself := (subsample_ok_iff.1 hsub).2
      subst hself
      have hold1 : self.transformations_[self.currIndex_]? = some old := hold
      have hlt : self.currIndex_ < self.transformations_.length := by
        by_contra hcon
        rw [List.getElem?_eq_none (by omega)] at hold1
        cases hold1
      cases h
      refine ⟨out, _, _, old, hcalc, rfl, hold1, ?_, ?_, ?_, ?_, ?_, rfl, rfl, rfl⟩
      · exact List.getElem?_set_self hlt
      · intro p
        exact transformPoint_mul _ _ p
      · intro mv_tr tr v hv
        unfold motion_move at hv
        rw [elemAt_of_getElem? hold1] at hv
        simp only at hv
        cases hv
        exact List.getElem?_set_self hlt
      · intro k hk
        exact List.getElem?_set_ne (Ne.symm hk)
      · simp

theorem perform_registration_frame_witness :
    perform_registration flatAngle (fun _ _ => Transformation.identity)
        (fun _ _ _ => shiftX) pairViewer true
      = .ok { pairViewer with
          sampledPoints_ := [0]
          transformations_ := [Transformation.identity, shiftX] } ∧
      ∃ (out : Correspondences ℤ) (self1 : RegistrationViewer ℤ)
          (opt_tr old : Transformation ℤ),
        calculate_correspondences flatAngle pairViewer [] [] [] = .ok (out, self1) ∧
        opt_tr = (if true = true then
            (fun _ _ _ => shiftX) out.src out.target out.target_normals
          else (fun _ _ => Transformation.identity) out.src out.target) ∧
        pairViewer.transformations_[pairViewer.currIndex_]? = some old ∧
        ({ pairViewer with
            sampledPoints_ := [0]
            transformations_ := [Transformation.identity, shiftX] }
          : RegistrationViewer ℤ).transformations_[pairViewer.currIndex_]?
          = some (opt_tr.mul old) ∧
        (∀ p : Vector3d ℤ,
          (opt_tr.mul old).transformPoint p = opt_tr.transformPoint (old.transformPoint p)) ∧
        (∀ (mv_tr tr : Transformation ℤ) (v : RegistrationViewer ℤ),
          motion_move pairViewer mv_tr tr = .ok v →
          v.transformations_[pairViewer.currIndex_]?
            = some (((mv_tr.inverse.mul tr).mul mv_tr).mul old)) ∧
        (∀ k : Nat, k ≠ pairViewer.currIndex_ →
          ({ pairViewer with
              sampledPoints_ := [0]
              transformations_ := [Transformation.identity, shiftX] }
            : RegistrationViewer ℤ).transformations_[k]? = pairViewer.transformations_[k]?) ∧
        ({ pairViewer with
            sampledPoints_ := [0]
            transformations_ := [Transformation.identity, shiftX] }
          : RegistrationViewer ℤ).transformations_.length
            = pairViewer.transformations_.length ∧
        ({ pairViewer with
            sampledPoints_ := [0]
            transformations_ := [Transformation.identity, shiftX] }
          : RegistrationViewer ℤ).meshes_ = pairViewer.meshes_ ∧
        ({ pairViewer with
            sampledPoints_ := [0]
            transformations_ := [Transformation.identity, shiftX] }
          : RegistrationViewer ℤ).currIndex_ = pairViewer.currIndex_ ∧
        ({ pairViewer with
            sampledPoints_ := [0]
            transformations_ := [Transformation.identity, shiftX] }
          : RegistrationViewer ℤ).numProcessed_ = pairViewer.numProcessed_ :=
  ⟨by decide,
    perform_registration_frame flatAngle (fun _ _ => Transformation.identity)
      (fun _ _ _ => shiftX) pairViewer
      { pairViewer with
        sampledPoints_ := [0]
        transformations_ := [Transformation.identity, shiftX] } true (by decide)⟩

end RegistrationClaims

section EmptyScanClaims

variable {K : Type} [LinearOrderedCommRing K]

set_option maxRecDepth 200000

/-- C11 (as stated, refuted): two files are loaded, the first cannot be read
and the second holds the tetrahedron.  `open_meshes` appends the empty mesh
for the first file, both scans count as processed and the tetrahedron is
current.  The empty target scan is not skipped: the closest-point query on it
fails and the failure ends the whole call, for every angle function, whereas
the same call with only the tetrahedron loaded returns the (empty)
correspondences of the remaining target scans. -/
theorem calculate_correspondences_empty_target_not_skipped :
    halfLoadedViewer.meshes_ = [⟨[], []⟩, tetraMesh] ∧
      halfLoadedViewer.currIndex_ = 1 ∧ halfLoadedViewer.numProcessed_ = 2 ∧
      (∀ angleDeg : Vector3d ℤ → Vector3d ℤ → Option ℤ,
        calculate_correspondences angleDeg halfLoadedViewer [] [] [] = .error .emptyIndex) ∧
      calculate_correspondences flatAngle
          (open_meshes intSqrt (fun x y => x / y) freshViewer [some tetraMesh]).2 [] [] []
        = .ok (⟨[], [], []⟩,
            { (open_meshes intSqrt (fun x y => x / y) freshViewer [some tetraMesh]).2 with
              sampledPoints_ := [0] }) := by
  refine ⟨by decide, by decide, by decide, ?_, by decide⟩
  intro angleDeg
  have hcol : collectCandidates halfLoadedViewer = .error .emptyIndex := by decide
  unfold calculate_correspondences
  simp only
  rw [hcol]

/-- C11 (amended): when the current scan and every other processed scan is a
loaded scan with at least one point, `calculate_correspondences` returns the
pruned correspondences of all processed target scans, and for every processed
target scan and every sampled source index the closest-point query succeeds
with an index that is a position of the target points and of the boundary
flags. -/
theorem calculate_correspondences_nonempty_targets (angleDeg : Vector3d K → Vector3d K → Option K)
    (self : RegistrationViewer K) (a b c : List (Vector3d K))
    (mesh : Mesh K) (tr : Transformation K)
    (hm : self.meshes_[self.currIndex_]? = some mesh)
    (htr : self.transformations_[self.currIndex_]? = some tr)
    (hne : mesh.vertices ≠ [])
    (hothers : ∀ i, i < self.numProcessed_ → i ≠ self.currIndex_ →
      ∃ m t, self.meshes_[i]? = some m ∧ self.transformations_[i]? = some t ∧
        m.vertices ≠ []) :
    ∃ (out : Correspondences K) (idx : List Nat),
      calculate_correspondences angleDeg self a b c
        = .ok (out, { self with sampledPoints_ := idx }) ∧
      subsample self (tr.transformPoints (get_points mesh))
        = .ok (idx, { self with sampledPoints_ := idx }) ∧
      out.src = ((accumulationOrder self (tr.transformPoints (get_points mesh))
        (tr.transformVectors (get_normals mesh)) idx).filter (survives angleDeg)).map
          (fun c => c.srcPt) ∧
      out.target = ((accumulationOrder self (tr.transformPoints (get_points mesh))
        (tr.transformVectors (get_normals mesh)) idx).filter (survives angleDeg)).map
          (fun c => c.targetPt) ∧
      out.target_normals = ((accumulationOrder self (tr.transformPoints (get_points mesh))
        (tr.transformVectors (get_normals mesh)) idx).filter (survives angleDeg)).map
          (fun c => c.targetNormal) ∧
      ∀ (i : Nat) (m : Mesh K) (t : Transformation K) (index : Nat),
        i < self.numProcessed_ → i ≠ self.currIndex_ → self.meshes_[i]? = some m →
        self.transformations_[i]? = some t → index ∈ idx →
        ∃ (sp : Vector3d K) (bestIndex : Nat),
          (tr.transformPoints (get_points mesh))[index]? = some sp ∧
          getClosestPoint (t.transformPoints (get_points m)) sp = .ok bestIndex ∧
          bestIndex < (t.transformPoints (get_points m)).length ∧
          bestIndex < (get_borders m).length := by
  obtain ⟨out, idx, hc⟩ :=
    calculate_correspondences_total angleDeg self a b c mesh tr hm htr hne hothers
  obtain ⟨mesh1, tr1, idx1, hm1, htr1, hsub, _, hout⟩ := calculate_correspondences_ok hc
  rw [hm] at hm1
  rw [htr] at htr1
  cases hm1
  cases htr1
  obtain ⟨hidx, hself⟩ := subsample_ok_iff.1 hsub
  have hi : idx = idx1 := by
    have := congrArg RegistrationViewer.sampledPoints_ hself
    simpa using this
  subst hi
  refine ⟨out, idx, hc, hsub, ?_, ?_, ?_, ?_⟩
  · rw [hout]
  · rw [hout]
  · rw [hout]
  · intro i m t index hi hic hmi hti hmem
    obtain ⟨m1, t1, hm2, _, hne1⟩ := hothers i hi hic
    rw [hmi] at hm2
    cases hm2
    have hlt := subsampleIndices_lt hidx index hmem
    have hpts : t.transformPoints (get_points m) ≠ [] := by
      simp [Transformation.transformPoints, get_points, hne1]
    obtain ⟨best, hbest, hbl⟩ :=
      getClosestPoint_total (t.transformPoints (get_points m))
        (tr.transformPoints (get_points mesh))[index] hpts
    refine ⟨_, best, List.getElem?_eq_getElem hlt, hbest, hbl, ?_⟩
    simpa [Transformation.transformPoints, get_points, get_borders] using hbl

theorem calculate_correspondences_nonempty_targets_witness :
    calculate_correspondences flatAngle pairViewer [] [] []
        = .ok (⟨[⟨0, 1, 0⟩], [⟨0, 0, 0⟩], [⟨0, 0, 1⟩]⟩,
            { pairViewer with sampledPoints_ := [0] }) ∧
      ∃ (out : Correspondences ℤ) (idx : List Nat),
        calculate_correspondences flatAngle pairViewer [] [] []
          = .ok (out, { pairViewer with sampledPoints_ := idx }) ∧
        subsample pairViewer
            (Transformation.identity.transformPoints (get_points (meshOfPoints [⟨0, 1, 0⟩])))
          = .ok (idx, { pairViewer with sampledPoints_ := idx }) ∧
        out.src = ((accumulationOrder pairViewer
          (Transformation.identity.transformPoints (get_points (meshOfPoints [⟨0, 1, 0⟩])))
          (Transformation.identity.transformVectors (get_normals (meshOfPoints [⟨0, 1, 0⟩])))
          idx).filter (survives flatAngle)).map (fun c => c.srcPt) ∧
        out.target = ((accumulationOrder pairViewer
          (Transformation.identity.transformPoints (get_points (meshOfPoints [⟨0, 1, 0⟩])))
          (Transformation.identity.transformVectors (get_normals (meshOfPoints [⟨0, 1, 0⟩])))
          idx).filter (survives flatAngle)).map (fun c => c.targetPt) ∧
        out.target_normals = ((accumulationOrder pairViewer
          (Transformation.identity.transformPoints (get_points (meshOfPoints [⟨0, 1, 0⟩])))
          (Transformation.identity.transformVectors (get_normals (meshOfPoints [⟨0, 1, 0⟩])))
          idx).filter (survives flatAngle)).map (fun c => c.targetNormal) ∧
        ∀ (i : Nat) (m : Mesh ℤ) (t : Transformation ℤ) (index : Nat),
          i < pairViewer.numProcessed_ → i ≠ pairViewer.currIndex_ →
          pairViewer.meshes_[i]? = some m →
          pairViewer.transformations_[i]? = some t → index ∈ idx →
          ∃ (sp : Vector3d ℤ) (bestIndex : Nat),
            (Transformation.identity.transformPoints
              (get_points (meshOfPoints [⟨0, 1, 0⟩])))[index]? = some sp ∧
            getClosestPoint (t.transformPoints (get_points m)) sp = .ok bestIndex ∧
            bestIndex < (t.transformPoints (get_points m)).length ∧
            bestIndex < (get_borders m).length :=
  ⟨by decide,
    calculate_correspondences_nonempty_targets flatAngle pairViewer [] [] []
      (meshOfPoints [⟨0, 1, 0⟩]) Transformation.identity (by decide) (by decide) (by decide)
      (by
        intro i hi hic
        have hnp : pairViewer.numProcessed_ = 2 := rfl
        have hcu : pairViewer.currIndex_ = 1 := rfl
        have h0 : i = 0 := by omega
        subst h0
        exact ⟨meshOfPoints [⟨0, 0, 0⟩, ⟨5, 0, 0⟩], Transformation.identity, by decide,
          by decide, by decide⟩)⟩

end EmptyScanClaims

end ICP
